import Mathlib

/-!
Verification development for the Silica API indexing service.

The definitions below are a shallow embedding of the Rust source:
the stealth-output scanner (`src/stealth_scanner.rs`), the chain
indexer and identity registry sync (`src/indexer/mod.rs`), and the
identity string utilities (`src/identity.rs`).  Machine integers are
modelled as `Nat`/`Int` with explicit bounds where the source checks
them; fallible code returns `Option` or an explicit result inductive;
panicking assertions are modelled as a distinguished `panicked`
outcome.  Database effects and cache mutations are modelled as
explicit state passing and event traces.
-/

namespace SilicaApi

/-- `i64::MAX`. -/
def i64Max : ℕ := 9223372036854775807

/-- `u64::MAX`. -/
def u64Max : ℕ := 18446744073709551615

/-- `u64::saturating_add` on values represented as naturals. -/
def satAdd (a b : ℕ) : ℕ := min (a + b) u64Max

/-- Left fold of `satAdd`, the saturating sum of a list of amounts. -/
def satSum (l : List ℕ) : ℕ := l.foldl satAdd 0

/-- `u64::try_from` applied to an `i64` value: succeeds exactly on
non-negative inputs. -/
def u64OfI64 (v : Int) : Option ℕ := if 0 ≤ v then some v.toNat else none

/-- `u32::try_from` applied to an `i32` value: succeeds exactly on
non-negative inputs (every non-negative `i32` fits in `u32`). -/
def u32OfI32 (v : Int) : Option ℕ := if 0 ≤ v then some v.toNat else none

/-! ## Stealth scanner data model (`src/stealth_scanner.rs`) -/

/-- Image of a stored `stealth_output::Model` row.  Byte strings are
lists of byte values; nullable columns are `Option`. -/
structure StealthOutputModel where
  txId : String
  outputIndex : Int
  blockNumber : Int
  sender : String
  fee : Int
  timestamp : Int
  commitment : List ℕ
  stealthPublicKey : List ℕ
  txPublicKey : List ℕ
  amount : Option Int
  memoPlaintext : Option String
  encryptedMemoCiphertext : Option (List ℕ)
  encryptedMemoNonce : Option (List ℕ)
  encryptedMemoMessageNumber : Option Int
deriving DecidableEq

/-- `to_array::<N>`: succeeds exactly when the byte string has length
`n`. -/
def toArrayN (n : ℕ) (v : List ℕ) : Option (List ℕ) :=
  if v.length = n then some v else none

/-- `StoredEncryptedMemo` of the scanner. -/
structure StoredEncryptedMemo where
  ciphertext : List ℕ
  nonce : List ℕ
  messageNumber : ℕ
deriving DecidableEq

/-- `StoredOutputKind` of the scanner. -/
inductive StoredOutputKind
  | plaintext (amount : ℕ) (memo : Option String)
  | encrypted (memo : StoredEncryptedMemo)
deriving DecidableEq

/-- `StealthOutputRecord`: the in-memory record a row converts to. -/
structure StealthOutputRecord where
  txId : String
  sender : String
  fee : ℕ
  timestamp : Int
  stealthPublicKey : List ℕ
  txPublicKey : List ℕ
  kind : StoredOutputKind
deriving DecidableEq

/-- `StealthOutputRecord::try_from(&stealth_output::Model)`:
structural validation of a stored row.  Mirrors the source checks:
the two public keys must be exactly 32 bytes, `fee` and `amount`
must convert to `u64`, the three encrypted-memo fields must be all
present (with a 12-byte nonce and a `u32` message number) or all
absent, and exactly one of the plaintext-amount / encrypted-memo
shapes must hold.  The source never examines `commitment`. -/
def tryFromModel (m : StealthOutputModel) : Option StealthOutputRecord := do
  let spk ← toArrayN 32 m.stealthPublicKey
  let tpk ← toArrayN 32 m.txPublicKey
  let fee ← u64OfI64 m.fee
  let amount ← match m.amount with
    | some v => (u64OfI64 v).map some
    | none => pure none
  let encryptedMemo ← match m.encryptedMemoCiphertext, m.encryptedMemoNonce,
      m.encryptedMemoMessageNumber with
    | some c, some n, some num => do
        let nonce ← toArrayN 12 n
        let msg ← u32OfI32 num
        pure (some (StoredEncryptedMemo.mk c nonce msg))
    | none, none, none => pure none
    | _, _, _ => none
  let kind ← match amount, encryptedMemo with
    | some v, none => some (StoredOutputKind.plaintext v m.memoPlaintext)
    | none, some memo => some (StoredOutputKind.encrypted memo)
    | _, _ => none
  pure { txId := m.txId, sender := m.sender, fee := fee, timestamp := m.timestamp,
         stealthPublicKey := spk, txPublicKey := tpk, kind := kind }

/-- `convert_models`: convert each row, skipping (with a warning in
the source) rows whose conversion fails. -/
def convert_models (models : List StealthOutputModel) : List StealthOutputRecord :=
  models.filterMap tryFromModel

/-- `OwnedStealthTransactionView` restricted to the fields the
aggregation logic reads. -/
structure OwnedStealthTransactionView where
  transactionId : String
  sender : String
  fee : ℕ
  amount : ℕ
deriving DecidableEq

/-- `ScanOutcome`. -/
structure ScanOutcome where
  transactions : List OwnedStealthTransactionView
  ownedTotal : ℕ
  totalBalance : ℕ
  totalScanned : ℕ
  hasMore : Bool
deriving DecidableEq

/-- `ScanOutcome::empty()`. -/
def ScanOutcome.empty : ScanOutcome :=
  { transactions := [], ownedTotal := 0, totalBalance := 0, totalScanned := 0,
    hasMore := false }

/-- The body of the per-record branch of `detect_owned_outputs` once
an owned view has been produced: saturating balance update, owned
counter, and a push bounded by `limit`. -/
def detectStep (limit : ℕ) (o : ScanOutcome) (v : OwnedStealthTransactionView) :
    ScanOutcome :=
  { o with
    totalBalance := satAdd o.totalBalance v.amount
    ownedTotal := o.ownedTotal + 1
    transactions :=
      if o.transactions.length < limit then o.transactions ++ [v]
      else o.transactions }

/-- The fold over records inside `detect_owned_outputs`.  The
per-record trial decryption (`evaluate_plaintext` /
`evaluate_encrypted` against the key bundle) is abstracted as the
function `evalOwned`; universal quantification over it models "for
every key bundle". -/
def detectLoop (evalOwned : StealthOutputRecord → Option OwnedStealthTransactionView)
    (limit : ℕ) (o : ScanOutcome) : List StealthOutputRecord → ScanOutcome
  | [] => o
  | r :: rs =>
    match evalOwned r with
    | none => detectLoop evalOwned limit o rs
    | some v => detectLoop evalOwned limit (detectStep limit o v) rs

/-- `detect_owned_outputs`. -/
def detect_owned_outputs (records : List StealthOutputRecord)
    (evalOwned : StealthOutputRecord → Option OwnedStealthTransactionView)
    (limit : ℕ) : ScanOutcome :=
  if records.isEmpty then ScanOutcome.empty
  else
    let o := detectLoop evalOwned limit
      { transactions := [], ownedTotal := 0, totalBalance := 0,
        totalScanned := records.length, hasMore := false } records
    { o with hasMore := decide (o.transactions.length < o.ownedTotal) }

/-- `MAX_OUTPUTS_PER_REQUEST`. -/
def MAX_OUTPUTS_PER_REQUEST : ℕ := 200000

/-- `ScanError` (the `Database` variant is unreachable in this
effect-free model of queries, but kept for shape fidelity). -/
inductive ScanError
  | database
  | blockBoundExceeded (block : ℕ)
  | outputOverflow (observed : ℕ) (limit : ℕ)
deriving DecidableEq

/-- Result of `scan_owned_outputs`, with the `assert!` on the range
order modelled as a `panicked` outcome. -/
inductive ScanResult
  | panicked
  | err (e : ScanError)
  | ok (o : ScanOutcome)
deriving DecidableEq

/-- The range condition of the scan query:
`block_number >= from && block_number <= to`. -/
def inScanRange (fromI toI : Int) (m : StealthOutputModel) : Bool :=
  decide (fromI ≤ m.blockNumber) && decide (m.blockNumber ≤ toI)

/-- The `ORDER BY (block_number ASC, output_index ASC)` comparator of
the row select. -/
def rowOrder (a b : StealthOutputModel) : Bool :=
  decide (a.blockNumber < b.blockNumber) ||
    (decide (a.blockNumber = b.blockNumber) && decide (a.outputIndex ≤ b.outputIndex))

/-- The rows the count query and the select of `scan_owned_outputs`
both range over: block number within `[from_block, to_block]`. -/
def matchingRows (rows : List StealthOutputModel) (fromBlock toBlock : ℕ) :
    List StealthOutputModel :=
  rows.filter (inScanRange (Int.ofNat fromBlock) (Int.ofNat toBlock))

/-- `scan_owned_outputs` over an explicit list of stored rows.  The
count query, the zero / overflow early returns, the ordered select,
the conversion and the detection pass mirror the source in order. -/
def scan_owned_outputs (rows : List StealthOutputModel)
    (evalOwned : StealthOutputRecord → Option OwnedStealthTransactionView)
    (fromBlock toBlock : ℕ) (limit : ℕ) : ScanResult :=
  if ¬ fromBlock ≤ toBlock then .panicked
  else if i64Max < fromBlock then .err (.blockBoundExceeded fromBlock)
  else if i64Max < toBlock then .err (.blockBoundExceeded toBlock)
  else if (matchingRows rows fromBlock toBlock).length = 0 then .ok ScanOutcome.empty
  else if MAX_OUTPUTS_PER_REQUEST < (matchingRows rows fromBlock toBlock).length then
    .err (.outputOverflow (matchingRows rows fromBlock toBlock).length
      MAX_OUTPUTS_PER_REQUEST)
  else
    .ok (detect_owned_outputs
      (convert_models ((matchingRows rows fromBlock toBlock).mergeSort rowOrder))
      evalOwned limit)

/-! ## Chain ingestor: atomic block persistence (`src/indexer/mod.rs`) -/

/-- `i32::MAX`. -/
def i32Max : ℕ := 2147483647

/-- Bounds imported by the indexer from the external `silica` crates
(`MAX_STEALTH_OUTPUTS_PER_TRANSACTION`,
`STEALTH_OUTPUT_MEMO_MAX_BYTES`); their values live outside this
repository, so the development is universally quantified over them. -/
structure ExternalBounds where
  maxStealthOutputsPerTransaction : ℕ
  stealthOutputMemoMaxBytes : ℕ

/-- Encrypted memo carried by a chain stealth output
(ciphertext plus `u32` message number; the 12-byte nonce is fixed
width by type and does not affect any modelled check). -/
structure EncryptedMemoIn where
  ciphertext : List ℕ
  messageNumber : ℕ
deriving DecidableEq

/-- A chain stealth output as delivered by the node RPC. -/
structure StealthOutputIn where
  index : ℕ
  amount : Option ℕ
  memoPlaintext : Option String
  memoEncrypted : Option EncryptedMemoIn
deriving DecidableEq

/-- A chain transaction as delivered by the node RPC (fields the
persistence path checks or stores). -/
structure TransactionIn where
  txId : String
  sender : String
  amount : ℕ
  fee : ℕ
  nonce : ℕ
  stealthOutputs : List StealthOutputIn
deriving DecidableEq

/-- A chain block as delivered by the node RPC (fields the
persistence path checks or stores). -/
structure BlockIn where
  blockNumber : ℕ
  blockHash : String
  gasUsed : ℕ
  gasLimit : ℕ
  stateRootLen : ℕ
  stateLeafCount : ℕ
  transactions : List TransactionIn
deriving DecidableEq

/-- The relational store restricted to the rows the FK invariant is
about: block numbers in `Blocks`, `(tx_id, block_number)` rows in
`Transactions`, `(tx_id, output_index, block_number)` rows in
`StealthOutputs`. -/
structure DbState where
  blocks : List ℕ
  txRows : List (String × ℕ)
  soRows : List (String × ℕ × ℕ)
deriving DecidableEq

/-- The checks of `insert_block`: non-empty hash, 32-byte state root,
gas bounds, `gas_used <= gas_limit`, leaf-count and tx-count bounds. -/
def insertBlockChecks (b : BlockIn) : Bool :=
  decide (b.blockHash ≠ "") && decide (b.stateRootLen = 32) &&
  decide (b.gasLimit ≤ i64Max) && decide (b.gasUsed ≤ i64Max) &&
  decide (b.gasUsed ≤ b.gasLimit) && decide (b.stateLeafCount ≤ i64Max) &&
  decide (b.transactions.length ≤ i32Max)

/-- The per-output checks of `insert_stealth_outputs`: position under
the external fan-out bound, `i32` output index, bounded plaintext
memo, positive `i64` amount when present, non-empty ciphertext and
`i32` message number when encrypted, bounded sender length. -/
def stealthOutputRowCheck (B : ExternalBounds) (sender : String)
    (position : ℕ) (o : StealthOutputIn) : Bool :=
  decide (position < B.maxStealthOutputsPerTransaction) &&
  decide (o.index ≤ i32Max) &&
  (match o.memoPlaintext with
   | some memo => decide (memo.length ≤ B.stealthOutputMemoMaxBytes)
   | none => true) &&
  (match o.amount with
   | some v => decide (0 < v) && decide (v ≤ i64Max)
   | none => true) &&
  (match o.memoEncrypted with
   | some memo => decide (memo.ciphertext ≠ []) && decide (memo.messageNumber ≤ i32Max)
   | none => true) &&
  decide (sender.length ≤ 128)

/-- `insert_stealth_outputs`: empty fan-out inserts nothing; the
fan-out bound and the per-output checks gate a single bulk insert of
rows all carrying the enclosing block number.  `none` models the
error / assertion-failure exit (the surrounding transaction is then
dropped). -/
def insertStealthOutputRows (B : ExternalBounds) (bn : ℕ) (tx : TransactionIn) :
    Option (List (String × ℕ × ℕ)) :=
  if tx.stealthOutputs = [] then some []
  else if B.maxStealthOutputsPerTransaction < tx.stealthOutputs.length then none
  else if tx.stealthOutputs.enum.all
      (fun po => stealthOutputRowCheck B tx.sender po.1 po.2) then
    some (tx.stealthOutputs.map (fun o => (tx.txId, o.index, bn)))
  else none

/-- `insert_transaction` within the open block transaction: bound
checks, duplicate `tx_id` skip, row insert, then the stealth-output
bulk insert. -/
def insertTransaction (B : ExternalBounds) (bn : ℕ) (db : DbState)
    (tx : TransactionIn) : Option DbState :=
  if ¬ (tx.amount ≤ i64Max ∧ tx.fee ≤ i64Max) then none
  else if (db.txRows.map Prod.fst).contains tx.txId then some db
  else if ¬ tx.nonce ≤ i64Max then none
  else
    match insertStealthOutputRows B bn tx with
    | some rows =>
      some { db with txRows := db.txRows ++ [(tx.txId, bn)],
                     soRows := db.soRows ++ rows }
    | none => none

/-- `insert_transactions`: the fan-out assertion and the in-order
fold of `insert_transaction`. -/
def insertTransactionsFold (B : ExternalBounds) (bn : ℕ) :
    DbState → List TransactionIn → Option DbState
  | db, [] => some db
  | db, tx :: rest =>
    match insertTransaction B bn db tx with
    | some db1 => insertTransactionsFold B bn db1 rest
    | none => none

/-- `persist_block`: bound check, existing-block idempotence skip,
then one database transaction inserting the block row, its
transaction rows and their stealth-output rows; any failure rolls the
whole transaction back.  The boolean is `true` exactly when the call
returns `Ok`. -/
def persist_block (B : ExternalBounds) (db : DbState) (b : BlockIn) :
    DbState × Bool :=
  if ¬ b.blockNumber ≤ i64Max then (db, false)
  else if db.blocks.contains b.blockNumber then (db, true)
  else if ¬ insertBlockChecks b then (db, false)
  else if ¬ b.transactions.length ≤ 10000 then (db, false)
  else
    match insertTransactionsFold B b.blockNumber
        { db with blocks := db.blocks ++ [b.blockNumber] } b.transactions with
    | some db1 => (db1, true)
    | none => (db, false)

/-- The referential-integrity invariant of §8(3): every `Transaction`
row and every `StealthOutput` row names a block number present in
`Blocks`. -/
def fkInv (db : DbState) : Prop :=
  (∀ r ∈ db.txRows, r.2 ∈ db.blocks) ∧ (∀ r ∈ db.soRows, r.2.2 ∈ db.blocks)

/-! ## Checkpoint persistence (`create_checkpoint`, `persist_checkpoint_for`) -/

/-- Result of a checkpoint write; assertion failures panic. -/
inductive CheckpointResult
  | panicked
  | ok
deriving DecidableEq

/-- The advisory sanity bound both checkpoint writers assert:
`block < 1_000_000_000_000`. -/
def CHECKPOINT_SANITY_BOUND : ℕ := 1000000000000

/-- `create_checkpoint`: lazy creation on first load.  Asserts a
non-empty id, the `i64` bound, and the sanity bound. -/
def create_checkpoint (id : String) (block : ℕ) : CheckpointResult :=
  if id = "" then .panicked
  else if i64Max < block then .panicked
  else if CHECKPOINT_SANITY_BOUND ≤ block then .panicked
  else .ok

/-- `persist_checkpoint_for`: the per-tick checkpoint upsert.
Asserts a non-empty id, the `i64` bound, and the sanity bound. -/
def persist_checkpoint_for (id : String) (block : ℕ) : CheckpointResult :=
  if id = "" then .panicked
  else if i64Max < block then .panicked
  else if CHECKPOINT_SANITY_BOUND ≤ block then .panicked
  else .ok

/-! ## The ingestor tick (`tick` in `src/indexer/mod.rs`) -/

/-- The ingestor's top-level shared state: the database, the `"chain"`
checkpoint value, and the `last_indexed_block` atomic cell. -/
structure IndexerState where
  db : DbState
  chainCkpt : ℕ
  cell : ℕ
deriving DecidableEq

/-- Observable effects of one tick, in program order. -/
inductive TickEvent
  | persistBlock (b : ℕ)
  | storeCell (b : ℕ)
  | writeCheckpoint (b : ℕ)
  | identitySync (tip : ℕ)
deriving DecidableEq

/-- Outcome of a tick: the returned cursor, a propagated error, or a
failed assertion. -/
inductive TickOutcome
  | ok (next : ℕ)
  | errored
  | panicked
deriving DecidableEq

/-- `max(block_number in Blocks)`, with 0 for an empty table. -/
def maxBlock (blocks : List ℕ) : ℕ := blocks.foldr max 0

/-- The per-block loop of `tick`: skip guard, `persist_block`, then
the publication `last_indexed_block.store(block_number)`.  Returns
the final state, the `processed` cursor, the emitted events, and
whether the loop completed without error. -/
def runBlocks (B : ExternalBounds) (current : ℕ) :
    IndexerState → ℕ → List BlockIn → IndexerState × ℕ × List TickEvent × Bool
  | s, processed, [] => (s, processed, [], true)
  | s, processed, blk :: rest =>
    if blk.blockNumber ≤ current then runBlocks B current s processed rest
    else
      match persist_block B s.db blk with
      | (db1, true) =>
        let s1 : IndexerState := { s with db := db1, cell := blk.blockNumber }
        let r := runBlocks B current s1 blk.blockNumber rest
        (r.1, r.2.1, .persistBlock blk.blockNumber :: .storeCell blk.blockNumber :: r.2.2.1,
         r.2.2.2)
      | (db1, false) => ({ s with db := db1 }, processed, [], false)

/-- The candidate ordering of `tick`: ascending `block_number`. -/
def sortBlocks (blocks : List BlockIn) : List BlockIn :=
  blocks.mergeSort (fun a b => a.blockNumber ≤ b.blockNumber)

/-- One ingestor tick: height fetch asserts, the up-to-date early
return, the retain / sort of candidates, the per-block loop, and —
when the cursor advanced — the checkpoint write followed by the
identity sync. -/
def tick (B : ExternalBounds) (s : IndexerState) (current latest : ℕ)
    (fetched : List BlockIn) : IndexerState × List TickEvent × TickOutcome :=
  if latest < current then (s, [], .panicked)
  else if i64Max < latest then (s, [], .panicked)
  else if latest = current then (s, [], .ok current)
  else
    let blocks := sortBlocks (fetched.filter (fun b => decide (current < b.blockNumber)))
    match runBlocks B current s current blocks with
    | (s1, processed, ev, true) =>
      if current < processed then
        match persist_checkpoint_for "chain" processed with
        | .panicked => (s1, ev, .panicked)
        | .ok =>
          ({ s1 with chainCkpt := processed },
           ev ++ [.writeCheckpoint processed, .identitySync processed], .ok processed)
      else (s1, ev, .ok processed)
    | (s1, _, ev, false) => (s1, ev, .errored)

/-- The startup of `run`: the loaded `"chain"` checkpoint is stored
into the `last_indexed_block` cell. -/
def startupStoreCell (s : IndexerState) : IndexerState :=
  { s with cell := s.chainCkpt }

/-- The values stored into the atomic cell along a trace, in order. -/
def storedVals (ev : List TickEvent) : List ℕ :=
  ev.filterMap (fun e => match e with | .storeCell b => some b | _ => none)

/-- `storesPersisted seen ev` holds when every `storeCell b` in `ev`
is preceded (in `ev`, or by `seen`) by a successful `persistBlock b`:
the cell is advanced only after the block's persistence completed. -/
def storesPersisted (seen : List ℕ) : List TickEvent → Bool
  | [] => true
  | .persistBlock b :: rest => storesPersisted (b :: seen) rest
  | .storeCell b :: rest => seen.contains b && storesPersisted seen rest
  | _ :: rest => storesPersisted seen rest

/-- The cell never exceeds the largest block number in `Blocks`. -/
def cellInv (s : IndexerState) : Prop := s.cell ≤ maxBlock s.db.blocks

/-- The persisted chain checkpoint never exceeds the largest block
number in `Blocks`. -/
def ckptInv (s : IndexerState) : Prop := s.chainCkpt ≤ maxBlock s.db.blocks

/-! ## Identity registry sync (`sync_identity_registry` and friends) -/

/-- `MAX_IDENTITY_SYNC_ITERATIONS`. -/
def MAX_IDENTITY_SYNC_ITERATIONS : ℕ := 2048

/-- Observable effects of the identity sync, in program order. -/
inductive IdentityEvent
  | rpcCall (fromBlock : ℕ)
  | beginTxn
  | upsertProfile (id : String)
  | replaceWalletLinks (id : String)
  | invalidateProfile (id : String)
  | invalidateWallets (id : String)
  | commit
  | persistCursor (block : ℕ)
  | invalidateSearchAll
deriving DecidableEq

/-- A registry RPC response: the reported latest block and the batch
of updates (each update abstracted to its raw payload). -/
structure IdentityRegistryResponse where
  latestBlock : ℕ
  updates : List String
deriving DecidableEq

/-- The effects of one `persist_identity_update` call for an update
that validated with canonical id `cid`: profile upsert, wallet-link
replacement, then the two per-identity cache invalidations — all
before the caller's `commit`. -/
def perUpdateTrace (cid : String) : List IdentityEvent :=
  [.upsertProfile cid, .replaceWalletLinks cid,
   .invalidateProfile cid, .invalidateWallets cid]

/-- Result of `apply_identity_updates`: a failed assertion, a
validation error aborting the open transaction (with the events
already emitted), or success with the next checkpoint and the full
event trace. -/
inductive ApplyResult
  | panicked
  | errored (trace : List IdentityEvent)
  | ok (nextCheckpoint : ℕ) (trace : List IdentityEvent)
deriving DecidableEq

/-- The update loop inside the open transaction.  `validate`
abstracts the per-update decoding and validation of
`persist_identity_update` (`none` = validation error, `some cid` =
success with canonical identity id); universal quantification over it
models every decodable batch. -/
def applyUpdatesLoop (validate : String → Option String) :
    List String → Except (List IdentityEvent) (List IdentityEvent)
  | [] => .ok []
  | u :: rest =>
    match validate u with
    | none => .error []
    | some cid =>
      match applyUpdatesLoop validate rest with
      | .ok tr => .ok (perUpdateTrace cid ++ tr)
      | .error tr => .error (perUpdateTrace cid ++ tr)

/-- `apply_identity_updates`: regression and bound asserts, the
empty-batch early return persisting the cursor, otherwise one
transaction over the batch, the commit, the cursor write, then the
coarse search-cache invalidation.  The loop assert
`index < MAX_IDENTITY_SYNC_ITERATIONS` over indices `0..len-1` fires
only when some index reaches the bound, i.e. when the batch is
strictly longer than `MAX_IDENTITY_SYNC_ITERATIONS`; a batch of
exactly that length is processed successfully. -/
def apply_identity_updates (validate : String → Option String)
    (previousCheckpoint : ℕ) (resp : IdentityRegistryResponse) : ApplyResult :=
  if resp.latestBlock < previousCheckpoint then .panicked
  else if i64Max < resp.latestBlock then .panicked
  else if resp.updates = [] then
    .ok resp.latestBlock [.persistCursor resp.latestBlock]
  else if MAX_IDENTITY_SYNC_ITERATIONS < resp.updates.length then .panicked
  else
    match applyUpdatesLoop validate resp.updates with
    | .error tr => .errored (.beginTxn :: tr)
    | .ok tr =>
      .ok resp.latestBlock
        (.beginTxn :: (tr ++ [.commit, .persistCursor resp.latestBlock,
          .invalidateSearchAll]))

/-- Outcome of the whole sync call. -/
inductive SyncOutcome
  | ok
  | errored
  | panicked
deriving DecidableEq

/-- The bounded sync loop.  `oracle` maps the cursor passed to
`fetch_identity_registry` to the node's response; `fuel` counts the
remaining iterations under `MAX_IDENTITY_SYNC_ITERATIONS`, whose
exhaustion trips the iteration assert. -/
def syncIdentityLoop (validate : String → Option String)
    (oracle : ℕ → IdentityRegistryResponse) (chainTip : ℕ) :
    ℕ → ℕ → List IdentityEvent × SyncOutcome
  | fuel, ckpt =>
    if ckpt < chainTip then
      match fuel with
      | 0 => ([], .panicked)
      | f + 1 =>
        match apply_identity_updates validate ckpt (oracle ckpt) with
        | .panicked => ([.rpcCall ckpt], .panicked)
        | .errored tr => (.rpcCall ckpt :: tr, .errored)
        | .ok next tr =>
          if next ≤ ckpt then (.rpcCall ckpt :: tr, .ok)
          else
            let r := syncIdentityLoop validate oracle chainTip f next
            (.rpcCall ckpt :: (tr ++ r.1), r.2)
    else ([], .ok)

/-- `sync_identity_registry`: early return when the cursor already
reached the chain tip, else the bounded loop. -/
def sync_identity_registry (validate : String → Option String)
    (oracle : ℕ → IdentityRegistryResponse) (chainTip initialCkpt : ℕ) :
    List IdentityEvent × SyncOutcome :=
  if chainTip ≤ initialCkpt then ([], .ok)
  else syncIdentityLoop validate oracle chainTip MAX_IDENTITY_SYNC_ITERATIONS initialCkpt

/-- Number of registry RPC calls in a sync trace. -/
def countRpcCalls (tr : List IdentityEvent) : ℕ :=
  tr.countP (fun e => match e with | .rpcCall _ => true | _ => false)

/-! ## Identity string utilities (`src/identity.rs`) -/

/-- `char::is_whitespace` (the Unicode `White_Space` property), as
used by `str::trim`. -/
def isRustWhitespace (c : Char) : Bool :=
  let n := c.toNat
  (9 ≤ n && n ≤ 13) || n = 32 || n = 133 || n = 160 || n = 5760 ||
  (8192 ≤ n && n ≤ 8202) || n = 8232 || n = 8233 || n = 8239 || n = 8287 ||
  n = 12288

/-- `str::trim`: strip leading and trailing whitespace. -/
def rustTrim (s : List Char) : List Char :=
  ((s.dropWhile isRustWhitespace).reverse.dropWhile isRustWhitespace).reverse

/-- `char::to_ascii_lowercase`: shift only A-Z; every other character
(including every non-ASCII character) is unchanged. -/
def asciiLowerChar (c : Char) : Char :=
  if 65 ≤ c.toNat ∧ c.toNat ≤ 90 then Char.ofNat (c.toNat + 32) else c

/-- `str::to_ascii_lowercase`. -/
def toAsciiLowercase (s : List Char) : List Char := s.map asciiLowerChar

/-- `MAX_DISPLAY_NAME_LEN`. -/
def MAX_DISPLAY_NAME_LEN : ℕ := 64

/-- `canonicalize_display_name`: trim; empty becomes `None`;
over-long names are a validation error (outer `none`). -/
def canonicalize_display_name (s : List Char) : Option (Option (List Char)) :=
  let trimmed := rustTrim s
  if trimmed = [] then some none
  else if MAX_DISPLAY_NAME_LEN < trimmed.length then none
  else some (some trimmed)

/-- `display_name_search_key`: trim, then ASCII-lowercase. -/
def display_name_search_key (name : List Char) : Option (List Char) :=
  let trimmed := rustTrim name
  if trimmed = [] then none else some (toAsciiLowercase trimmed)

/-- The `display_name_search` value computed by
`persist_identity_update`: canonicalize the display name, then feed
the result through `display_name_search_key` (outer `none` =
validation error propagated). -/
def stored_display_name_search (name : List Char) : Option (Option (List Char)) :=
  match canonicalize_display_name name with
  | none => none
  | some dn => some (dn.bind display_name_search_key)

/-- Modelled from the spec: "the lowercased form of the trimmed
display name" — Unicode simple lowercasing, given here on the ASCII
letters and the Latin-1 uppercase range À-Þ (excluding ×), which is
all the comparison below exercises. -/
def specLowercaseChar (c : Char) : Char :=
  let n := c.toNat
  if (65 ≤ n ∧ n ≤ 90) ∨ (192 ≤ n ∧ n ≤ 222 ∧ n ≠ 215) then Char.ofNat (n + 32)
  else c

/-- Modelled from the spec: lowercasing of a whole string. -/
def specLowercase (s : List Char) : List Char := s.map specLowercaseChar

/-! ## Concrete fixtures used by witnesses and counterexamples -/

/-- A trial-decryption function for witnesses: owns every plaintext
record, taking the stored amount. -/
def fixtureEval (r : StealthOutputRecord) : Option OwnedStealthTransactionView :=
  match r.kind with
  | .plaintext a _ =>
    some { transactionId := r.txId, sender := r.sender, fee := r.fee, amount := a }
  | .encrypted _ => none

/-- A well-formed plaintext record. -/
def fixtureRecordA : StealthOutputRecord :=
  { txId := "tx1", sender := "s1", fee := 1, timestamp := 0,
    stealthPublicKey := List.replicate 32 0, txPublicKey := List.replicate 32 0,
    kind := .plaintext 10 none }

/-- A second well-formed plaintext record. -/
def fixtureRecordB : StealthOutputRecord :=
  { txId := "tx2", sender := "s2", fee := 1, timestamp := 0,
    stealthPublicKey := List.replicate 32 0, txPublicKey := List.replicate 32 0,
    kind := .plaintext 20 none }

/-- A stored row passing every structural check. -/
def fixtureModelGood : StealthOutputModel :=
  { txId := "tx1", outputIndex := 0, blockNumber := 1, sender := "s1", fee := 1,
    timestamp := 0, commitment := List.replicate 32 0,
    stealthPublicKey := List.replicate 32 0, txPublicKey := List.replicate 32 0,
    amount := some 5, memoPlaintext := none, encryptedMemoCiphertext := none,
    encryptedMemoNonce := none, encryptedMemoMessageNumber := none }

/-- A stored row that is structurally valid in every field the
conversion examines, but whose commitment is zero bytes long. -/
def fixtureModelBadCommit : StealthOutputModel :=
  { fixtureModelGood with txId := "txc", commitment := [] }

/-- A stored row with a 31-byte stealth public key: conversion
rejects it. -/
def fixtureModelBadKey : StealthOutputModel :=
  { fixtureModelGood with txId := "txk", stealthPublicKey := List.replicate 31 0 }

/-- A chain block with no transactions and valid header fields. -/
def fixtureBlock (n : ℕ) : BlockIn :=
  { blockNumber := n, blockHash := "h", gasUsed := 0, gasLimit := 0,
    stateRootLen := 32, stateLeafCount := 0, transactions := [] }

/-- A chain transaction carrying one plaintext stealth output. -/
def fixtureTxn : TransactionIn :=
  { txId := "tx1", sender := "s1", amount := 100, fee := 1, nonce := 0,
    stealthOutputs :=
      [{ index := 0, amount := some 100, memoPlaintext := none,
         memoEncrypted := none }] }

/-- External bounds used by witnesses. -/
def fixtureBounds : ExternalBounds :=
  { maxStealthOutputsPerTransaction := 8, stealthOutputMemoMaxBytes := 512 }

/-- The empty initial indexer state. -/
def fixtureGenesis : IndexerState :=
  { db := { blocks := [], txRows := [], soRows := [] }, chainCkpt := 0, cell := 0 }

/-- A registry oracle answering cursor 0 with an empty batch at
latest block 5, and any later cursor with an empty batch at latest
block 10. -/
def fixtureOracle : ℕ → IdentityRegistryResponse :=
  fun c => if c = 0 then { latestBlock := 5, updates := [] }
           else { latestBlock := 10, updates := [] }

/-- A validator accepting every update with itself as canonical id. -/
def fixtureValidate : String → Option String := fun s => some s

/-- A one-update registry response. -/
def fixtureResp : IdentityRegistryResponse :=
  { latestBlock := 5, updates := ["aa"] }

/-- The event trace `apply_identity_updates` produces for
`fixtureResp` under `fixtureValidate`. -/
def fixtureTrace : List IdentityEvent :=
  [.beginTxn, .upsertProfile "aa", .replaceWalletLinks "aa",
   .invalidateProfile "aa", .invalidateWallets "aa", .commit,
   .persistCursor 5, .invalidateSearchAll]

/-! ## General list lemmas -/

theorem dropWhile_head_false {α : Type} (p : α → Bool) :
    ∀ (l : List α) (a : α) (t : List α), l.dropWhile p = a :: t → p a = false := by
  intro l
  induction l with
  | nil => intro a t h; simp [List.dropWhile] at h
  | cons x xs ih =>
    intro a t h
    rw [List.dropWhile_cons] at h
    by_cases hx : p x
    · rw [if_pos hx] at h; exact ih a t h
    · rw [if_neg hx] at h
      cases h
      simpa using hx

theorem dropWhile_idem {α : Type} (p : α → Bool) (l : List α) :
    (l.dropWhile p).dropWhile p = l.dropWhile p := by
  cases h : l.dropWhile p with
  | nil => simp
  | cons a t =>
    have ha := dropWhile_head_false p l a t h
    rw [List.dropWhile_cons, if_neg (by simp [ha])]

theorem rustTrim_prefix (s : List Char) :
    rustTrim s <+: s.dropWhile isRustWhitespace := by
  unfold rustTrim
  conv_rhs => rw [← List.reverse_reverse (s.dropWhile isRustWhitespace)]
  exact List.reverse_prefix.mpr (List.dropWhile_suffix _)

theorem rustTrim_dropWhile (s : List Char) :
    (rustTrim s).dropWhile isRustWhitespace = rustTrim s := by
  cases hb : rustTrim s with
  | nil => simp
  | cons x b =>
    obtain ⟨t, ht⟩ := rustTrim_prefix s
    rw [hb] at ht
    have hx : isRustWhitespace x = false :=
      dropWhile_head_false isRustWhitespace s x (b ++ t) (by rw [← ht]; simp)
    rw [List.dropWhile_cons, if_neg (by simp [hx])]

theorem rustTrim_idem (s : List Char) : rustTrim (rustTrim s) = rustTrim s := by
  have h2 : (rustTrim s).reverse.dropWhile isRustWhitespace = (rustTrim s).reverse := by
    have hrev : (rustTrim s).reverse
        = (s.dropWhile isRustWhitespace).reverse.dropWhile isRustWhitespace := by
      unfold rustTrim
      rw [List.reverse_reverse]
    rw [hrev, dropWhile_idem]
  conv_lhs => rw [rustTrim]
  rw [rustTrim_dropWhile, h2, List.reverse_reverse]

/-! ## Claim C9 -/

/-- Claim C9 counterexample: for the display name "É" (one character,
non-empty after trimming, within the 64-character limit) the stored
search value is "É" itself — `to_ascii_lowercase` leaves non-ASCII
characters unchanged — whereas the lowercased form of the trimmed
name is "é".  The claim fails for names containing non-ASCII
characters. -/
theorem display_name_search_non_ascii_cx :
    stored_display_name_search [Char.ofNat 201] = some (some [Char.ofNat 201]) ∧
    specLowercase (rustTrim [Char.ofNat 201]) = [Char.ofNat 233] ∧
    stored_display_name_search [Char.ofNat 201] ≠
      some (some (specLowercase (rustTrim [Char.ofNat 201]))) := by
  refine ⟨by decide, by decide, by decide⟩

/-- Claim C9 (amended): for every identity update whose display_name
trims to a non-empty string within the 64-character limit, the
display_name_search value stored with the profile equals the
ASCII-lowercased form of the trimmed display name: uppercase ASCII
letters are mapped to lowercase, every other character — including
every non-ASCII character — is stored unchanged. -/
theorem display_name_search_ascii_lowercase_amended (name : List Char)
    (hne : rustTrim name ≠ [])
    (hlen : (rustTrim name).length ≤ MAX_DISPLAY_NAME_LEN) :
    stored_display_name_search name = some (some (toAsciiLowercase (rustTrim name))) := by
  have h1 : canonicalize_display_name name = some (some (rustTrim name)) := by
    unfold canonicalize_display_name
    rw [if_neg hne, if_neg (by omega)]
  have h2 : display_name_search_key (rustTrim name)
      = some (toAsciiLowercase (rustTrim name)) := by
    unfold display_name_search_key
    rw [rustTrim_idem, if_neg hne]
  unfold stored_display_name_search
  rw [h1]
  simp [h2]

/-- Witness for C9 (amended) at the concrete name "  Alice ". -/
theorem display_name_search_ascii_lowercase_amended_witness :
    rustTrim (String.toList "  Alice ") ≠ [] ∧
    (rustTrim (String.toList "  Alice ")).length ≤ MAX_DISPLAY_NAME_LEN ∧
    stored_display_name_search (String.toList "  Alice ") =
      some (some (toAsciiLowercase (rustTrim (String.toList "  Alice ")))) :=
  ⟨by decide, by decide,
    display_name_search_ascii_lowercase_amended (String.toList "  Alice ")
      (by decide) (by decide)⟩

/-! ## Claim C10 -/

/-- Claim C10: persisting a checkpoint — both the lazy creation on
first load and the per-tick upsert — panics for every block number at
or above 10^12, even though every such value up to `i64::MAX` is
representable in the stored column (`CHECKPOINT_SANITY_BOUND ≤ i64Max`),
and succeeds exactly for block numbers strictly below 10^12. -/
theorem checkpoint_bound_panics (id : String) (block : ℕ) (hid : ¬ id = "") :
    (CHECKPOINT_SANITY_BOUND ≤ block →
      create_checkpoint id block = .panicked ∧
      persist_checkpoint_for id block = .panicked) ∧
    (block < CHECKPOINT_SANITY_BOUND →
      create_checkpoint id block = .ok ∧ persist_checkpoint_for id block = .ok) ∧
    CHECKPOINT_SANITY_BOUND ≤ i64Max := by
  refine ⟨fun h => ?_, fun h => ?_, by norm_num [CHECKPOINT_SANITY_BOUND, i64Max]⟩
  · by_cases h2 : i64Max < block <;>
      simp [create_checkpoint, persist_checkpoint_for, hid, h2, h]
  · have h2 : ¬ i64Max < block := by
      simp only [CHECKPOINT_SANITY_BOUND] at h
      simp only [i64Max]
      omega
    simp [create_checkpoint, persist_checkpoint_for, hid, h2, Nat.not_le.mpr h]

/-- Witness for C10 at the id "chain": block 10^12 panics in both
writers, block 5 succeeds in both. -/
theorem checkpoint_bound_panics_witness :
    (CHECKPOINT_SANITY_BOUND ≤ 1000000000000 →
      create_checkpoint "chain" 1000000000000 = .panicked ∧
      persist_checkpoint_for "chain" 1000000000000 = .panicked) ∧
    (5 < CHECKPOINT_SANITY_BOUND →
      create_checkpoint "chain" 5 = .ok ∧ persist_checkpoint_for "chain" 5 = .ok) ∧
    (CHECKPOINT_SANITY_BOUND ≤ i64Max ∧ CHECKPOINT_SANITY_BOUND ≤ i64Max) :=
  ⟨(checkpoint_bound_panics "chain" 1000000000000 (by decide)).1,
   (checkpoint_bound_panics "chain" 5 (by decide)).2.1,
   (checkpoint_bound_panics "chain" 1000000000000 (by decide)).2.2,
   (checkpoint_bound_panics "chain" 5 (by decide)).2.2⟩

/-! ## Claim C8 -/

/-- Claim C8: on a tick where the node reports a chain height equal to
the current cursor, the ingestor performs no database writes, writes
no checkpoint, leaves the `last_indexed_block` cell unchanged,
invokes no identity sync (the state is returned untouched and the
event trace is empty), and returns the cursor unchanged. -/
theorem empty_tick_frame (B : ExternalBounds) (s : IndexerState) (current : ℕ)
    (fetched : List BlockIn) (hbound : current ≤ i64Max) :
    tick B s current current fetched = (s, [], .ok current) := by
  unfold tick
  rw [if_neg (lt_irrefl current), if_neg (Nat.not_lt.mpr hbound), if_pos rfl]

/-- Witness for C8 at a concrete state and height. -/
theorem empty_tick_frame_witness :
    tick (ExternalBounds.mk 8 512)
      (IndexerState.mk (DbState.mk [3] [] []) 3 3) 3 3 [] =
      (IndexerState.mk (DbState.mk [3] [] []) 3 3, [], .ok 3) :=
  empty_tick_frame (ExternalBounds.mk 8 512)
    (IndexerState.mk (DbState.mk [3] [] []) 3 3) 3 [] (by decide)

/-! ## Scanner aggregation lemmas -/

theorem detectLoop_totalScanned
    (e : StealthOutputRecord → Option OwnedStealthTransactionView) (limit : ℕ) :
    ∀ (rs : List StealthOutputRecord) (o : ScanOutcome),
      (detectLoop e limit o rs).totalScanned = o.totalScanned := by
  intro rs
  induction rs with
  | nil => intro o; rfl
  | cons r rest ih =>
    intro o
    cases hr : e r <;> simp [detectLoop, hr, ih, detectStep]

theorem detectLoop_hasMore
    (e : StealthOutputRecord → Option OwnedStealthTransactionView) (limit : ℕ) :
    ∀ (rs : List StealthOutputRecord) (o : ScanOutcome),
      (detectLoop e limit o rs).hasMore = o.hasMore := by
  intro rs
  induction rs with
  | nil => intro o; rfl
  | cons r rest ih =>
    intro o
    cases hr : e r <;> simp [detectLoop, hr, ih, detectStep]

theorem detectLoop_ownedTotal
    (e : StealthOutputRecord → Option OwnedStealthTransactionView) (limit : ℕ) :
    ∀ (rs : List StealthOutputRecord) (o : ScanOutcome),
      (detectLoop e limit o rs).ownedTotal = o.ownedTotal + (rs.filterMap e).length := by
  intro rs
  induction rs with
  | nil => intro o; simp [detectLoop]
  | cons r rest ih =>
    intro o
    cases hr : e r with
    | none => rw [List.filterMap_cons_none hr]; simp [detectLoop, hr, ih]
    | some v =>
      rw [List.filterMap_cons_some hr]
      simp [detectLoop, hr, ih, detectStep]
      omega

theorem detectLoop_totalBalance
    (e : StealthOutputRecord → Option OwnedStealthTransactionView) (limit : ℕ) :
    ∀ (rs : List StealthOutputRecord) (o : ScanOutcome),
      (detectLoop e limit o rs).totalBalance
        = ((rs.filterMap e).map (fun v => v.amount)).foldl satAdd o.totalBalance := by
  intro rs
  induction rs with
  | nil => intro o; simp [detectLoop]
  | cons r rest ih =>
    intro o
    cases hr : e r with
    | none => rw [List.filterMap_cons_none hr]; simp [detectLoop, hr, ih]
    | some v =>
      rw [List.filterMap_cons_some hr]
      simp [detectLoop, hr, ih, detectStep]

theorem detectLoop_transactions
    (e : StealthOutputRecord → Option OwnedStealthTransactionView) (limit : ℕ) :
    ∀ (rs : List StealthOutputRecord) (o : ScanOutcome),
      (detectLoop e limit o rs).transactions
        = o.transactions ++ (rs.filterMap e).take (limit - o.transactions.length) := by
  intro rs
  induction rs with
  | nil => intro o; simp [detectLoop]
  | cons r rest ih =>
    intro o
    cases hr : e r with
    | none => rw [List.filterMap_cons_none hr]; simp [detectLoop, hr, ih]
    | some v =>
      rw [List.filterMap_cons_some hr]
      simp only [detectLoop, hr]
      rw [ih]
      by_cases hlen : o.transactions.length < limit
      · have hstep : (detectStep limit o v).transactions = o.transactions ++ [v] := by
          simp [detectStep, hlen]
        have harith : limit - o.transactions.length
            = (limit - (o.transactions.length + 1)) + 1 := by omega
        rw [hstep, harith, List.take_succ_cons]
        simp
      · have hstep : (detectStep limit o v).transactions = o.transactions := by
          simp [detectStep, hlen]
        have h0 : limit - o.transactions.length = 0 := by omega
        rw [hstep, h0]
        simp

theorem detect_totalScanned (records : List StealthOutputRecord)
    (e : StealthOutputRecord → Option OwnedStealthTransactionView) (limit : ℕ) :
    (detect_owned_outputs records e limit).totalScanned = records.length := by
  cases records with
  | nil => rfl
  | cons r rs => simp [detect_owned_outputs, detectLoop_totalScanned]

/-! ## Claim C1 -/

/-- Claim C1: for every list of well-formed stealth-output records,
every key bundle (abstracted as the trial-decryption function
`evalOwned`), and every `limit > 0`, the outcome of the detection
pass satisfies: `transactions` is the first owned outputs in scan
order, at most `limit` of them; `owned_total` counts all owned
outputs; `total_balance` is the saturating sum of all owned amounts,
including those beyond the limit; and `has_more` holds exactly when
`owned_total > transactions.len()`. -/
theorem scanner_detection_pass_spec (records : List StealthOutputRecord)
    (evalOwned : StealthOutputRecord → Option OwnedStealthTransactionView)
    (limit : ℕ) (_hlimit : 0 < limit) :
    (detect_owned_outputs records evalOwned limit).transactions
        = (records.filterMap evalOwned).take limit ∧
    (detect_owned_outputs records evalOwned limit).transactions.length ≤ limit ∧
    (detect_owned_outputs records evalOwned limit).ownedTotal
        = (records.filterMap evalOwned).length ∧
    (detect_owned_outputs records evalOwned limit).totalBalance
        = satSum ((records.filterMap evalOwned).map (fun v => v.amount)) ∧
    ((detect_owned_outputs records evalOwned limit).hasMore = true ↔
      (detect_owned_outputs records evalOwned limit).transactions.length
        < (detect_owned_outputs records evalOwned limit).ownedTotal) := by
  cases records with
  | nil => simp [detect_owned_outputs, ScanOutcome.empty, satSum]
  | cons r rs =>
    have htx := detectLoop_transactions evalOwned limit (r :: rs)
      { transactions := [], ownedTotal := 0, totalBalance := 0,
        totalScanned := (r :: rs).length, hasMore := false }
    have hot := detectLoop_ownedTotal evalOwned limit (r :: rs)
      { transactions := [], ownedTotal := 0, totalBalance := 0,
        totalScanned := (r :: rs).length, hasMore := false }
    have htb := detectLoop_totalBalance evalOwned limit (r :: rs)
      { transactions := [], ownedTotal := 0, totalBalance := 0,
        totalScanned := (r :: rs).length, hasMore := false }
    simp only [List.append_nil, List.length_nil, Nat.sub_zero, Nat.zero_add,
      List.nil_append] at htx hot htb
    have hdef : detect_owned_outputs (r :: rs) evalOwned limit
        = { detectLoop evalOwned limit
              { transactions := [], ownedTotal := 0, totalBalance := 0,
                totalScanned := (r :: rs).length, hasMore := false } (r :: rs) with
            hasMore := decide
              ((detectLoop evalOwned limit
                { transactions := [], ownedTotal := 0, totalBalance := 0,
                  totalScanned := (r :: rs).length, hasMore := false }
                (r :: rs)).transactions.length
              < (detectLoop evalOwned limit
                { transactions := [], ownedTotal := 0, totalBalance := 0,
                  totalScanned := (r :: rs).length, hasMore := false }
                (r :: rs)).ownedTotal) } := by
      simp [detect_owned_outputs]
    rw [hdef]
    refine ⟨by simpa using htx, ?_, by simpa using hot, by simpa [satSum] using htb, ?_⟩
    · simp only []
      rw [htx]
      simp [List.length_take]
    · simp [decide_eq_true_eq]

/-- Witness for C1 at two records, an owning evaluation function and
limit 1. -/
theorem scanner_detection_pass_spec_witness :
    (detect_owned_outputs [fixtureRecordA, fixtureRecordB] fixtureEval 1).transactions
        = ([fixtureRecordA, fixtureRecordB].filterMap fixtureEval).take 1 ∧
    (detect_owned_outputs [fixtureRecordA, fixtureRecordB] fixtureEval 1).transactions.length ≤ 1 ∧
    (detect_owned_outputs [fixtureRecordA, fixtureRecordB] fixtureEval 1).ownedTotal
        = ([fixtureRecordA, fixtureRecordB].filterMap fixtureEval).length ∧
    (detect_owned_outputs [fixtureRecordA, fixtureRecordB] fixtureEval 1).totalBalance
        = satSum (([fixtureRecordA, fixtureRecordB].filterMap fixtureEval).map
            (fun v => v.amount)) ∧
    ((detect_owned_outputs [fixtureRecordA, fixtureRecordB] fixtureEval 1).hasMore = true ↔
      (detect_owned_outputs [fixtureRecordA, fixtureRecordB] fixtureEval 1).transactions.length
        < (detect_owned_outputs [fixtureRecordA, fixtureRecordB] fixtureEval 1).ownedTotal) :=
  scanner_detection_pass_spec [fixtureRecordA, fixtureRecordB] fixtureEval 1 (by decide)

/-! ## Claim C4 -/

/-- Claim C4 counterexample: a stored row whose commitment is zero
bytes long (not 32) passes the structural validation of
`StealthOutputRecord::try_from` — the conversion never examines the
commitment — so the row is not skipped and is counted by
`total_scanned`, contradicting the claim that rows with a non-32-byte
commitment are skipped. -/
theorem scan_commitment_not_validated_cx :
    fixtureModelBadCommit.commitment.length ≠ 32 ∧
    (tryFromModel fixtureModelBadCommit).isSome = true ∧
    (detect_owned_outputs (convert_models [fixtureModelBadCommit])
      (fun _ => none) 4).totalScanned = 1 := by
  refine ⟨by decide, by decide, by decide⟩

/-- Claim C4 (amended): for every stored stealth-output row that
fails the structural validation the conversion actually performs —
`stealth_public_key` or `tx_public_key` not exactly 32 bytes,
`encrypted_memo_nonce` not exactly 12 bytes, `fee` or `amount` not
convertible to `u64`, or the row not having exactly one of
{amount set} / {all three encrypted-memo fields set} — the scan skips
that row and continues (the commitment is not examined); the scan
never fails because of such a row, and `total_scanned` counts only
the rows that passed validation. -/
theorem scan_skips_invalid_rows_amended (pre post : List StealthOutputModel)
    (bad : StealthOutputModel)
    (evalOwned : StealthOutputRecord → Option OwnedStealthTransactionView)
    (limit : ℕ) (hbad : tryFromModel bad = none) :
    convert_models (pre ++ bad :: post) = convert_models (pre ++ post) ∧
    detect_owned_outputs (convert_models (pre ++ bad :: post)) evalOwned limit
      = detect_owned_outputs (convert_models (pre ++ post)) evalOwned limit ∧
    (detect_owned_outputs (convert_models (pre ++ bad :: post)) evalOwned limit).totalScanned
      = ((pre ++ bad :: post).filterMap tryFromModel).length := by
  have h1 : convert_models (pre ++ bad :: post) = convert_models (pre ++ post) := by
    unfold convert_models
    rw [List.filterMap_append, List.filterMap_append, List.filterMap_cons_none hbad]
  exact ⟨h1, by rw [h1], by rw [detect_totalScanned]; rfl⟩

/-- Witness for C4 (amended): a row with a 31-byte stealth key is
skipped between two occurrences of a good row. -/
theorem scan_skips_invalid_rows_amended_witness :
    tryFromModel fixtureModelBadKey = none ∧
    convert_models ([fixtureModelGood] ++ fixtureModelBadKey :: [])
      = convert_models ([fixtureModelGood] ++ []) ∧
    detect_owned_outputs (convert_models ([fixtureModelGood] ++ fixtureModelBadKey :: []))
        fixtureEval 4
      = detect_owned_outputs (convert_models ([fixtureModelGood] ++ [])) fixtureEval 4 ∧
    (detect_owned_outputs (convert_models ([fixtureModelGood] ++ fixtureModelBadKey :: []))
        fixtureEval 4).totalScanned
      = (([fixtureModelGood] ++ fixtureModelBadKey :: []).filterMap tryFromModel).length :=
  ⟨by decide,
    scan_skips_invalid_rows_amended [fixtureModelGood] [] fixtureModelBadKey
      fixtureEval 4 (by decide)⟩

/-! ## Claim C3 -/

theorem matchingRows_length_eq (fromBlock toBlock : ℕ) :
    ∀ (rows rows2 : List StealthOutputModel),
      rows.map (fun m => m.blockNumber) = rows2.map (fun m => m.blockNumber) →
      (matchingRows rows fromBlock toBlock).length
        = (matchingRows rows2 fromBlock toBlock).length := by
  intro rows
  induction rows with
  | nil =>
    intro rows2 h
    cases rows2 with
    | nil => rfl
    | cons m2 ms2 => simp at h
  | cons m ms ih =>
    intro rows2 h
    cases rows2 with
    | nil => simp at h
    | cons m2 ms2 =>
      simp only [List.map_cons, List.cons.injEq] at h
      obtain ⟨h1, h2⟩ := h
      unfold matchingRows
      simp only [List.filter_cons]
      have hsame : inScanRange (Int.ofNat fromBlock) (Int.ofNat toBlock) m
          = inScanRange (Int.ofNat fromBlock) (Int.ofNat toBlock) m2 := by
        unfold inScanRange
        rw [h1]
      rw [hsame]
      have hrest := ih ms2 h2
      unfold matchingRows at hrest
      rcases Bool.eq_false_or_eq_true
          (inScanRange (Int.ofNat fromBlock) (Int.ofNat toBlock) m2) with hc | hc
      · rw [if_pos hc, if_pos hc]
        simp only [List.length_cons]
        omega
      · rw [if_neg (ne_true_of_eq_false hc), if_neg (ne_true_of_eq_false hc)]
        exact hrest

/-- Claim C3: for every scan whose bounds fit in `i64`, if the count
of stored stealth outputs with block number in
`[from_block, to_block]` exceeds 200 000, the scan returns
`OutputOverflow` with `observed` equal to that count and `limit`
equal to 200 000 — and the result is the same for any row contents
with the same block numbers, i.e. no row is read or decoded; if the
count is zero the scan returns the empty outcome. -/
theorem scan_owned_outputs_overflow_empty (rows : List StealthOutputModel)
    (evalOwned : StealthOutputRecord → Option OwnedStealthTransactionView)
    (fromBlock toBlock limit : ℕ)
    (hrange : fromBlock ≤ toBlock) (hbound : toBlock ≤ i64Max) :
    (MAX_OUTPUTS_PER_REQUEST < (matchingRows rows fromBlock toBlock).length →
      scan_owned_outputs rows evalOwned fromBlock toBlock limit =
        .err (.outputOverflow (matchingRows rows fromBlock toBlock).length
          MAX_OUTPUTS_PER_REQUEST) ∧
      ∀ rows2 : List StealthOutputModel,
        rows2.map (fun m => m.blockNumber) = rows.map (fun m => m.blockNumber) →
        scan_owned_outputs rows2 evalOwned fromBlock toBlock limit =
          scan_owned_outputs rows evalOwned fromBlock toBlock limit) ∧
    ((matchingRows rows fromBlock toBlock).length = 0 →
      scan_owned_outputs rows evalOwned fromBlock toBlock limit = .ok ScanOutcome.empty) := by
  have hfrom : ¬ i64Max < fromBlock := Nat.not_lt.mpr (le_trans hrange hbound)
  have hto : ¬ i64Max < toBlock := Nat.not_lt.mpr hbound
  constructor
  · intro hover
    have hne : ¬ (matchingRows rows fromBlock toBlock).length = 0 := by
      intro h0
      rw [h0] at hover
      exact absurd hover (by simp)
    have hmain : scan_owned_outputs rows evalOwned fromBlock toBlock limit =
        .err (.outputOverflow (matchingRows rows fromBlock toBlock).length
          MAX_OUTPUTS_PER_REQUEST) := by
      unfold scan_owned_outputs
      rw [if_neg (not_not_intro hrange), if_neg hfrom, if_neg hto, if_neg hne,
        if_pos hover]
    refine ⟨hmain, fun rows2 hsame => ?_⟩
    have hlen := matchingRows_length_eq fromBlock toBlock rows2 rows hsame
    have hne2 : ¬ (matchingRows rows2 fromBlock toBlock).length = 0 := by
      rw [hlen]; exact hne
    have hover2 : MAX_OUTPUTS_PER_REQUEST < (matchingRows rows2 fromBlock toBlock).length := by
      rw [hlen]; exact hover
    rw [hmain]
    unfold scan_owned_outputs
    rw [if_neg (not_not_intro hrange), if_neg hfrom, if_neg hto, if_neg hne2,
      if_pos hover2, hlen]
  · intro hzero
    unfold scan_owned_outputs
    rw [if_neg (not_not_intro hrange), if_neg hfrom, if_neg hto, if_pos hzero]

/-- Witness for C3: a range holding 200 001 copies of a row yields
the overflow error with `observed = 200001`; an empty store yields
the empty outcome. -/
theorem scan_owned_outputs_overflow_empty_witness :
    scan_owned_outputs (List.replicate 200001 fixtureModelGood) fixtureEval 0 5 4 =
      .err (.outputOverflow 200001 200000) ∧
    scan_owned_outputs ([] : List StealthOutputModel) fixtureEval 0 5 4 =
      .ok ScanOutcome.empty := by
  have hcount : (matchingRows (List.replicate 200001 fixtureModelGood) 0 5).length
      = 200001 := by
    unfold matchingRows
    rw [List.filter_replicate, if_pos (by decide), List.length_replicate]
  constructor
  · have h := (scan_owned_outputs_overflow_empty
      (List.replicate 200001 fixtureModelGood) fixtureEval 0 5 4
      (by decide) (by decide)).1
    rw [hcount] at h
    exact (h (by norm_num [MAX_OUTPUTS_PER_REQUEST])).1
  · exact (scan_owned_outputs_overflow_empty ([] : List StealthOutputModel)
      fixtureEval 0 5 4 (by decide) (by decide)).2 rfl

/-! ## Claim C5 -/

/-- Claim C5 counterexample: for a one-update batch, the per-identity
profile and wallet-list cache invalidations appear in the trace of
`apply_identity_updates` strictly before the `commit` event — the
source invalidates them at the end of `persist_identity_update`,
inside the still-open transaction — refuting "after the database
transaction has successfully committed, never before". -/
theorem identity_cache_invalidation_before_commit_cx :
    apply_identity_updates fixtureValidate 0 fixtureResp = .ok 5 fixtureTrace ∧
    fixtureTrace.indexOf (IdentityEvent.invalidateProfile "aa")
      < fixtureTrace.indexOf IdentityEvent.commit ∧
    fixtureTrace.indexOf (IdentityEvent.invalidateWallets "aa")
      < fixtureTrace.indexOf IdentityEvent.commit := by
  refine ⟨by decide, by decide, by decide⟩

theorem applyUpdatesLoop_ok (validate : String → Option String) :
    ∀ (us : List String) (tr : List IdentityEvent),
      applyUpdatesLoop validate us = .ok tr →
      IdentityEvent.commit ∉ tr ∧
      (∀ u ∈ us, ∀ cid, validate u = some cid →
        IdentityEvent.invalidateProfile cid ∈ tr ∧
        IdentityEvent.invalidateWallets cid ∈ tr) := by
  intro us
  induction us with
  | nil =>
    intro tr h
    simp only [applyUpdatesLoop, Except.ok.injEq] at h
    subst h
    exact ⟨by simp, by intro u hu; simp at hu⟩
  | cons u rest ih =>
    intro tr h
    simp only [applyUpdatesLoop] at h
    cases hv : validate u with
    | none =>
      simp only [hv] at h
      exact Except.noConfusion h
    | some cid =>
      simp only [hv] at h
      cases hrest : applyUpdatesLoop validate rest with
      | error tr2 =>
        simp only [hrest] at h
        exact Except.noConfusion h
      | ok tr2 =>
        simp only [hrest, Except.ok.injEq] at h
        subst h
        obtain ⟨hnc, hmem⟩ := ih tr2 hrest
        refine ⟨?_, ?_⟩
        · simp [perUpdateTrace, hnc]
        · intro u2 hu2 cid2 hv2
          rcases List.mem_cons.mp hu2 with rfl | hu2
          · rw [hv] at hv2
            cases hv2
            exact ⟨by simp [perUpdateTrace], by simp [perUpdateTrace]⟩
          · have hm := hmem u2 hu2 cid2 hv2
            exact ⟨by simp [perUpdateTrace, hm.1], by simp [perUpdateTrace, hm.2]⟩

/-- Claim C5 (amended): for every identity upserted by a successful
`apply_identity_updates` batch, the invalidation of that identity's
profile cache entry and wallet-list cache entry occurs inside the
update loop, before the database transaction commits (the events lie
in the segment preceding the single `commit` event); only the coarse
search-cache invalidation happens after the commit. -/
theorem identity_cache_invalidation_order_amended
    (validate : String → Option String) (prev : ℕ)
    (resp : IdentityRegistryResponse) (next : ℕ) (tr : List IdentityEvent)
    (hne : ¬ resp.updates = [])
    (h : apply_identity_updates validate prev resp = .ok next tr) :
    ∃ inner, tr = .beginTxn :: (inner ++ [.commit, .persistCursor next,
        .invalidateSearchAll]) ∧
      IdentityEvent.commit ∉ inner ∧
      ∀ u ∈ resp.updates, ∀ cid, validate u = some cid →
        IdentityEvent.invalidateProfile cid ∈ inner ∧
        IdentityEvent.invalidateWallets cid ∈ inner := by
  unfold apply_identity_updates at h
  by_cases h1 : resp.latestBlock < prev
  · rw [if_pos h1] at h; simp at h
  rw [if_neg h1] at h
  by_cases h2 : i64Max < resp.latestBlock
  · rw [if_pos h2] at h; simp at h
  rw [if_neg h2, if_neg hne] at h
  by_cases h3 : MAX_IDENTITY_SYNC_ITERATIONS < resp.updates.length
  · rw [if_pos h3] at h; simp at h
  rw [if_neg h3] at h
  cases hloop : applyUpdatesLoop validate resp.updates with
  | error tr2 =>
    simp only [hloop] at h
    exact ApplyResult.noConfusion h
  | ok tr2 =>
    simp only [hloop, ApplyResult.ok.injEq] at h
    obtain ⟨hnext, htr⟩ := h
    subst hnext
    subst htr
    obtain ⟨hnc, hmem⟩ := applyUpdatesLoop_ok validate resp.updates tr2 hloop
    exact ⟨tr2, rfl, hnc, hmem⟩

/-- Witness for C5 (amended) at the one-update fixture batch. -/
theorem identity_cache_invalidation_order_amended_witness :
    ∃ inner, fixtureTrace = .beginTxn :: (inner ++ [.commit, .persistCursor 5,
        .invalidateSearchAll]) ∧
      IdentityEvent.commit ∉ inner ∧
      ∀ u ∈ fixtureResp.updates, ∀ cid, fixtureValidate u = some cid →
        IdentityEvent.invalidateProfile cid ∈ inner ∧
        IdentityEvent.invalidateWallets cid ∈ inner :=
  identity_cache_invalidation_order_amended fixtureValidate 0 fixtureResp 5
    fixtureTrace (by decide) (by decide)

/-! ## Claim C6 -/

/-- Claim C6 counterexample: with the chain tip at 10 and the cursor
at 0, the first registry call returns an empty batch with
`latest_block = 5`; the sync persists the cursor to 5 but does not
return — it issues a second registry RPC call (two `rpcCall` events
in the trace), refuting "then returns from the whole sync call,
issuing no further registry RPC calls". -/
theorem identity_sync_empty_batch_continues_cx :
    (fixtureOracle 0).updates = [] ∧
    sync_identity_registry fixtureValidate fixtureOracle 10 0 =
      ([.rpcCall 0, .persistCursor 5, .rpcCall 5, .persistCursor 10], .ok) ∧
    countRpcCalls (sync_identity_registry fixtureValidate fixtureOracle 10 0).1 = 2 := by
  refine ⟨by decide, by decide, by decide⟩

theorem syncIdentityLoop_panicked_case (validate : String → Option String)
    (oracle : ℕ → IdentityRegistryResponse) (chainTip f ckpt : ℕ)
    (h : ckpt < chainTip)
    (happ : apply_identity_updates validate ckpt (oracle ckpt) = .panicked) :
    syncIdentityLoop validate oracle chainTip (f + 1) ckpt
      = ([.rpcCall ckpt], .panicked) := by
  rw [syncIdentityLoop, if_pos h, happ]

theorem syncIdentityLoop_errored_case (validate : String → Option String)
    (oracle : ℕ → IdentityRegistryResponse) (chainTip f ckpt : ℕ)
    (tr : List IdentityEvent) (h : ckpt < chainTip)
    (happ : apply_identity_updates validate ckpt (oracle ckpt) = .errored tr) :
    syncIdentityLoop validate oracle chainTip (f + 1) ckpt
      = (.rpcCall ckpt :: tr, .errored) := by
  rw [syncIdentityLoop, if_pos h, happ]

theorem syncIdentityLoop_ok_case (validate : String → Option String)
    (oracle : ℕ → IdentityRegistryResponse) (chainTip f ckpt next : ℕ)
    (tr : List IdentityEvent) (h : ckpt < chainTip)
    (happ : apply_identity_updates validate ckpt (oracle ckpt) = .ok next tr) :
    syncIdentityLoop validate oracle chainTip (f + 1) ckpt
      = if next ≤ ckpt then (.rpcCall ckpt :: tr, .ok)
        else (.rpcCall ckpt ::
            (tr ++ (syncIdentityLoop validate oracle chainTip f next).1),
          (syncIdentityLoop validate oracle chainTip f next).2) := by
  rw [syncIdentityLoop, if_pos h, happ]

theorem syncIdentityLoop_done (validate : String → Option String)
    (oracle : ℕ → IdentityRegistryResponse) (chainTip fuel ckpt : ℕ)
    (h : ¬ ckpt < chainTip) :
    syncIdentityLoop validate oracle chainTip fuel ckpt = ([], .ok) := by
  cases fuel with
  | zero => rw [syncIdentityLoop, if_neg h]
  | succ f => rw [syncIdentityLoop, if_neg h]

theorem syncLoop_head (validate : String → Option String)
    (oracle : ℕ → IdentityRegistryResponse) (chainTip f ckpt : ℕ)
    (h : ckpt < chainTip) :
    ∃ rest, (syncIdentityLoop validate oracle chainTip (f + 1) ckpt).1
      = .rpcCall ckpt :: rest := by
  cases happ : apply_identity_updates validate ckpt (oracle ckpt) with
  | panicked =>
    rw [syncIdentityLoop_panicked_case validate oracle chainTip f ckpt h happ]
    exact ⟨[], rfl⟩
  | errored tr =>
    rw [syncIdentityLoop_errored_case validate oracle chainTip f ckpt tr h happ]
    exact ⟨tr, rfl⟩
  | ok next tr =>
    rw [syncIdentityLoop_ok_case validate oracle chainTip f ckpt next tr h happ]
    by_cases hn : next ≤ ckpt
    · rw [if_pos hn]
      exact ⟨tr, rfl⟩
    · rw [if_neg hn]
      exact ⟨tr ++ (syncIdentityLoop validate oracle chainTip f next).1, rfl⟩

/-- Claim C6 (amended): whenever a registry RPC call returns an empty
updates batch, the sync persists the identity cursor to the reported
`latest_block`; it then returns from the whole sync call only when
`latest_block` did not advance past the previous cursor or when it
reached the chain tip — otherwise the loop continues and issues a
further registry RPC call from the new cursor. -/
theorem identity_sync_empty_batch_amended
    (validate : String → Option String) (oracle : ℕ → IdentityRegistryResponse)
    (chainTip fuel ckpt : ℕ)
    (hlt : ckpt < chainTip)
    (hempty : (oracle ckpt).updates = [])
    (hlatest : ckpt ≤ (oracle ckpt).latestBlock)
    (hbound : (oracle ckpt).latestBlock ≤ i64Max) :
    apply_identity_updates validate ckpt (oracle ckpt)
        = .ok (oracle ckpt).latestBlock [.persistCursor (oracle ckpt).latestBlock] ∧
    ((oracle ckpt).latestBlock ≤ ckpt →
      syncIdentityLoop validate oracle chainTip (fuel + 1) ckpt
        = ([.rpcCall ckpt, .persistCursor (oracle ckpt).latestBlock], .ok)) ∧
    (chainTip ≤ (oracle ckpt).latestBlock → ckpt < (oracle ckpt).latestBlock →
      syncIdentityLoop validate oracle chainTip (fuel + 1) ckpt
        = ([.rpcCall ckpt, .persistCursor (oracle ckpt).latestBlock], .ok)) ∧
    (ckpt < (oracle ckpt).latestBlock → (oracle ckpt).latestBlock < chainTip →
      ∃ rest outc, syncIdentityLoop validate oracle chainTip (fuel + 1 + 1) ckpt
        = (.rpcCall ckpt :: .persistCursor (oracle ckpt).latestBlock ::
            .rpcCall (oracle ckpt).latestBlock :: rest, outc)) := by
  have happly : apply_identity_updates validate ckpt (oracle ckpt)
      = .ok (oracle ckpt).latestBlock [.persistCursor (oracle ckpt).latestBlock] := by
    unfold apply_identity_updates
    rw [if_neg (Nat.not_lt.mpr hlatest), if_neg (Nat.not_lt.mpr hbound),
      if_pos hempty]
  refine ⟨happly, fun hb => ?_, fun htip hadv => ?_, fun hadv htip => ?_⟩
  · rw [syncIdentityLoop_ok_case validate oracle chainTip fuel ckpt
      (oracle ckpt).latestBlock [.persistCursor (oracle ckpt).latestBlock] hlt happly]
    rw [if_pos hb]
  · rw [syncIdentityLoop_ok_case validate oracle chainTip fuel ckpt
      (oracle ckpt).latestBlock [.persistCursor (oracle ckpt).latestBlock] hlt happly]
    rw [if_neg (Nat.not_le.mpr hadv)]
    rw [syncIdentityLoop_done validate oracle chainTip fuel
      (oracle ckpt).latestBlock (Nat.not_lt.mpr htip)]
    rfl
  · obtain ⟨rest, hrest⟩ :=
      syncLoop_head validate oracle chainTip fuel (oracle ckpt).latestBlock htip
    refine ⟨rest, (syncIdentityLoop validate oracle chainTip (fuel + 1)
      (oracle ckpt).latestBlock).2, ?_⟩
    rw [syncIdentityLoop_ok_case validate oracle chainTip (fuel + 1) ckpt
      (oracle ckpt).latestBlock [.persistCursor (oracle ckpt).latestBlock] hlt happly]
    rw [if_neg (Nat.not_le.mpr hadv)]
    rw [Prod.mk.injEq]
    constructor
    · rw [hrest]
      rfl
    · rfl

/-- Witness for C6 (amended) at the two-step oracle fixture. -/
theorem identity_sync_empty_batch_amended_witness :
    apply_identity_updates fixtureValidate 0 (fixtureOracle 0)
        = .ok (fixtureOracle 0).latestBlock
            [.persistCursor (fixtureOracle 0).latestBlock] ∧
    ((fixtureOracle 0).latestBlock ≤ 0 →
      syncIdentityLoop fixtureValidate fixtureOracle 10 (0 + 1) 0
        = ([.rpcCall 0, .persistCursor (fixtureOracle 0).latestBlock], .ok)) ∧
    (10 ≤ (fixtureOracle 0).latestBlock → 0 < (fixtureOracle 0).latestBlock →
      syncIdentityLoop fixtureValidate fixtureOracle 10 (0 + 1) 0
        = ([.rpcCall 0, .persistCursor (fixtureOracle 0).latestBlock], .ok)) ∧
    (0 < (fixtureOracle 0).latestBlock → (fixtureOracle 0).latestBlock < 10 →
      ∃ rest outc, syncIdentityLoop fixtureValidate fixtureOracle 10 (0 + 1 + 1) 0
        = (.rpcCall 0 :: .persistCursor (fixtureOracle 0).latestBlock ::
            .rpcCall (fixtureOracle 0).latestBlock :: rest, outc)) :=
  identity_sync_empty_batch_amended fixtureValidate fixtureOracle 10 0 0
    (by decide) (by decide) (by decide) (by decide)

/-! ## Claim C2 -/

theorem insertStealthOutputRows_bn (B : ExternalBounds) (bn : ℕ) (tx : TransactionIn)
    (rows : List (String × ℕ × ℕ)) (h : insertStealthOutputRows B bn tx = some rows) :
    ∀ r ∈ rows, r.2.2 = bn := by
  unfold insertStealthOutputRows at h
  split at h
  · rw [Option.some.injEq] at h
    subst h
    intro r hr
    simp at hr
  · split at h
    · exact Option.noConfusion h
    · split at h
      · rw [Option.some.injEq] at h
        subst h
        intro r hr
        simp only [List.mem_map] at hr
        obtain ⟨o, ho, rfl⟩ := hr
        rfl
      · exact Option.noConfusion h

theorem insertTransaction_spec (B : ExternalBounds) (bn : ℕ) (db db1 : DbState)
    (tx : TransactionIn) (h : insertTransaction B bn db tx = some db1) :
    db1.blocks = db.blocks ∧
    (∀ r ∈ db1.txRows, r ∈ db.txRows ∨ r.2 = bn) ∧
    (∀ r ∈ db1.soRows, r ∈ db.soRows ∨ r.2.2 = bn) := by
  unfold insertTransaction at h
  split at h
  · exact Option.noConfusion h
  · split at h
    · rw [Option.some.injEq] at h
      subst h
      exact ⟨rfl, fun r hr => Or.inl hr, fun r hr => Or.inl hr⟩
    · split at h
      · exact Option.noConfusion h
      · split at h
        · rename_i rows heq
          rw [Option.some.injEq] at h
          subst h
          refine ⟨rfl, ?_, ?_⟩
          · intro r hr
            simp only [List.mem_append, List.mem_singleton] at hr
            rcases hr with hr | hr
            · exact Or.inl hr
            · subst hr
              exact Or.inr rfl
          · intro r hr
            simp only [List.mem_append] at hr
            rcases hr with hr | hr
            · exact Or.inl hr
            · exact Or.inr (insertStealthOutputRows_bn B bn tx rows heq r hr)
        · exact Option.noConfusion h

theorem insertTransactionsFold_spec (B : ExternalBounds) (bn : ℕ) :
    ∀ (txs : List TransactionIn) (db db1 : DbState),
      insertTransactionsFold B bn db txs = some db1 →
      db1.blocks = db.blocks ∧
      (∀ r ∈ db1.txRows, r ∈ db.txRows ∨ r.2 = bn) ∧
      (∀ r ∈ db1.soRows, r ∈ db.soRows ∨ r.2.2 = bn) := by
  intro txs
  induction txs with
  | nil =>
    intro db db1 h
    simp only [insertTransactionsFold, Option.some.injEq] at h
    subst h
    exact ⟨rfl, fun r hr => Or.inl hr, fun r hr => Or.inl hr⟩
  | cons tx rest ih =>
    intro db db1 h
    rw [insertTransactionsFold] at h
    cases htx : insertTransaction B bn db tx with
    | none =>
      simp only [htx] at h
      exact Option.noConfusion h
    | some dbm =>
      simp only [htx] at h
      obtain ⟨hb1, ht1, hs1⟩ := insertTransaction_spec B bn db dbm tx htx
      obtain ⟨hb2, ht2, hs2⟩ := ih dbm db1 h
      refine ⟨hb2.trans hb1, ?_, ?_⟩
      · intro r hr
        rcases ht2 r hr with hr2 | hr2
        · exact ht1 r hr2
        · exact Or.inr hr2
      · intro r hr
        rcases hs2 r hr with hr2 | hr2
        · exact hs1 r hr2
        · exact Or.inr hr2

/-- Case analysis of `persist_block`: either the call fails and the
store is untouched (rollback), or the block was already present and
the store is untouched, or the whole batch — block row, transaction
rows, stealth-output rows, all carrying this block number — is
applied in one step. -/
theorem persist_block_cases (B : ExternalBounds) (db : DbState) (b : BlockIn) :
    persist_block B db b = (db, false) ∨
    (persist_block B db b = (db, true) ∧ b.blockNumber ∈ db.blocks) ∨
    (∃ db1, persist_block B db b = (db1, true) ∧
      db1.blocks = db.blocks ++ [b.blockNumber] ∧
      (∀ r ∈ db1.txRows, r ∈ db.txRows ∨ r.2 = b.blockNumber) ∧
      (∀ r ∈ db1.soRows, r ∈ db.soRows ∨ r.2.2 = b.blockNumber)) := by
  unfold persist_block
  split
  · exact Or.inl rfl
  · split
    · rename_i h1 h2
      exact Or.inr (Or.inl ⟨rfl, List.mem_of_elem_eq_true h2⟩)
    · split
      · exact Or.inl rfl
      · split
        · exact Or.inl rfl
        · cases hfold : insertTransactionsFold B b.blockNumber
              { db with blocks := db.blocks ++ [b.blockNumber] } b.transactions with
          | none =>
            exact Or.inl rfl
          | some db1 =>
            obtain ⟨hb, ht, hs⟩ := insertTransactionsFold_spec B b.blockNumber
              b.transactions { db with blocks := db.blocks ++ [b.blockNumber] } db1 hfold
            exact Or.inr (Or.inr ⟨db1, rfl, hb, ht, hs⟩)

/-- Claim C2: `persist_block` inserts the block row, all of its
transaction rows and all of their stealth-output rows inside one
database transaction committed atomically — on any failure the store
is exactly as before, and on success every inserted row carries this
block's number while the block row itself is present — and the
referential-integrity invariant is preserved: in every reachable
store state, no `Transaction` or `StealthOutput` row has a
`block_number` for which no `Blocks` row exists. -/
theorem persist_block_atomic_fk_invariant (B : ExternalBounds) (db : DbState)
    (b : BlockIn) (hfk : fkInv db) :
    ((persist_block B db b).2 = false → (persist_block B db b).1 = db) ∧
    ((persist_block B db b).2 = true →
      b.blockNumber ∈ (persist_block B db b).1.blocks) ∧
    fkInv (persist_block B db b).1 := by
  rcases persist_block_cases B db b with h | ⟨h, hmem⟩ | ⟨db1, h, hb, ht, hs⟩
  · rw [h]
    exact ⟨fun _ => rfl, fun hc => absurd hc (by simp), hfk⟩
  · rw [h]
    exact ⟨fun hc => absurd hc (by simp), fun _ => hmem, hfk⟩
  · rw [h]
    refine ⟨fun hc => absurd hc (by simp), fun _ => ?_, ?_, ?_⟩
    · rw [hb]
      exact List.mem_append_right _ (List.mem_singleton_self _)
    · intro r hr
      rcases ht r hr with hr2 | hr2
      · rw [hb]
        exact List.mem_append_left _ (hfk.1 r hr2)
      · rw [hb, hr2]
        exact List.mem_append_right _ (List.mem_singleton_self _)
    · intro r hr
      rcases hs r hr with hr2 | hr2
      · rw [hb]
        exact List.mem_append_left _ (hfk.2 r hr2)
      · rw [hb, hr2]
        exact List.mem_append_right _ (List.mem_singleton_self _)

/-- Witness for C2: a fresh block with one transaction carrying one
stealth output, persisted into an empty store. -/
theorem persist_block_atomic_fk_invariant_witness :
    fkInv (DbState.mk [] [] []) ∧
    (((persist_block fixtureBounds (DbState.mk [] [] [])
        (BlockIn.mk 1 "h" 0 0 32 0 [fixtureTxn])).2 = false →
      (persist_block fixtureBounds (DbState.mk [] [] [])
        (BlockIn.mk 1 "h" 0 0 32 0 [fixtureTxn])).1 = DbState.mk [] [] []) ∧
    ((persist_block fixtureBounds (DbState.mk [] [] [])
        (BlockIn.mk 1 "h" 0 0 32 0 [fixtureTxn])).2 = true →
      (1 : ℕ) ∈ (persist_block fixtureBounds (DbState.mk [] [] [])
        (BlockIn.mk 1 "h" 0 0 32 0 [fixtureTxn])).1.blocks) ∧
    fkInv (persist_block fixtureBounds (DbState.mk [] [] [])
      (BlockIn.mk 1 "h" 0 0 32 0 [fixtureTxn])).1) :=
  ⟨⟨by simp [fkInv], by simp [fkInv]⟩,
    persist_block_atomic_fk_invariant fixtureBounds (DbState.mk [] [] [])
      (BlockIn.mk 1 "h" 0 0 32 0 [fixtureTxn])
      ⟨by simp [fkInv], by simp [fkInv]⟩⟩

/-! ## Claim C7 -/

theorem le_maxBlock_of_mem : ∀ (l : List ℕ) (v : ℕ), v ∈ l → v ≤ maxBlock l := by
  intro l
  induction l with
  | nil => intro v hv; simp at hv
  | cons a t ih =>
    intro v hv
    rcases List.mem_cons.mp hv with rfl | hv
    · exact le_max_left _ _
    · exact le_trans (ih v hv) (le_max_right _ _)

theorem maxBlock_le_of_subset : ∀ (l l2 : List ℕ), (∀ v ∈ l, v ∈ l2) →
    maxBlock l ≤ maxBlock l2 := by
  intro l
  induction l with
  | nil => intro l2 _; exact Nat.zero_le _
  | cons a t ih =>
    intro l2 hsub
    have ha : a ≤ maxBlock l2 :=
      le_maxBlock_of_mem l2 a (hsub a (List.mem_cons_self a t))
    have ht : maxBlock t ≤ maxBlock l2 :=
      ih l2 (fun v hv => hsub v (List.mem_cons_of_mem a hv))
    exact max_le ha ht

theorem storedVals_cons_persist (b : ℕ) (ev : List TickEvent) :
    storedVals (.persistBlock b :: ev) = storedVals ev := rfl

theorem storedVals_cons_store (b : ℕ) (ev : List TickEvent) :
    storedVals (.storeCell b :: ev) = b :: storedVals ev := rfl

theorem storedVals_append_tail (a b : ℕ) (ev : List TickEvent) :
    storedVals (ev ++ [.writeCheckpoint a, .identitySync b]) = storedVals ev := by
  unfold storedVals
  rw [List.filterMap_append]
  simp

theorem storesPersisted_append_tail (a b : ℕ) :
    ∀ (l : List TickEvent) (seen : List ℕ),
      storesPersisted seen (l ++ [.writeCheckpoint a, .identitySync b])
        = storesPersisted seen l := by
  intro l
  induction l with
  | nil => intro seen; rfl
  | cons e t ih =>
    intro seen
    cases e <;> simp [storesPersisted, ih]

theorem runBlocks_nil (B : ExternalBounds) (current : ℕ) (s : IndexerState)
    (p : ℕ) : runBlocks B current s p [] = (s, p, [], true) := rfl

theorem runBlocks_cons_skip (B : ExternalBounds) (current : ℕ) (s : IndexerState)
    (p : ℕ) (blk : BlockIn) (rest : List BlockIn)
    (h : blk.blockNumber ≤ current) :
    runBlocks B current s p (blk :: rest) = runBlocks B current s p rest := by
  rw [runBlocks, if_pos h]

theorem runBlocks_cons_ok (B : ExternalBounds) (current : ℕ) (s : IndexerState)
    (p : ℕ) (blk : BlockIn) (rest : List BlockIn) (db1 : DbState)
    (h : ¬ blk.blockNumber ≤ current)
    (hp : persist_block B s.db blk = (db1, true)) :
    runBlocks B current s p (blk :: rest)
      = ((runBlocks B current { s with db := db1, cell := blk.blockNumber }
            blk.blockNumber rest).1,
         (runBlocks B current { s with db := db1, cell := blk.blockNumber }
            blk.blockNumber rest).2.1,
         .persistBlock blk.blockNumber :: .storeCell blk.blockNumber ::
           (runBlocks B current { s with db := db1, cell := blk.blockNumber }
              blk.blockNumber rest).2.2.1,
         (runBlocks B current { s with db := db1, cell := blk.blockNumber }
            blk.blockNumber rest).2.2.2) := by
  rw [runBlocks, if_neg h, hp]

theorem runBlocks_cons_fail (B : ExternalBounds) (current : ℕ) (s : IndexerState)
    (p : ℕ) (blk : BlockIn) (rest : List BlockIn) (db1 : DbState)
    (h : ¬ blk.blockNumber ≤ current)
    (hp : persist_block B s.db blk = (db1, false)) :
    runBlocks B current s p (blk :: rest) = ({ s with db := db1 }, p, [], false) := by
  rw [runBlocks, if_neg h, hp]

/-- The inductive invariant of the per-block loop: the `processed`
cursor tracks the cell, the cell only grows along stored values that
are themselves block numbers present in the table, every store is
preceded by its successful persistence, and the checkpoint field is
untouched. -/
theorem runBlocks_spec (B : ExternalBounds) (current : ℕ) :
    ∀ (bs : List BlockIn) (s : IndexerState),
      List.Pairwise (fun a b => a.blockNumber ≤ b.blockNumber) bs →
      (∀ x ∈ bs, x.blockNumber ≤ current ∨ s.cell ≤ x.blockNumber) →
      s.cell ≤ maxBlock s.db.blocks →
      ((runBlocks B current s s.cell bs).1.cell = (runBlocks B current s s.cell bs).2.1 ∧
       s.cell ≤ (runBlocks B current s s.cell bs).1.cell) ∧
      (runBlocks B current s s.cell bs).1.chainCkpt = s.chainCkpt ∧
      (runBlocks B current s s.cell bs).1.cell
        ≤ maxBlock (runBlocks B current s s.cell bs).1.db.blocks ∧
      List.Chain (· ≤ ·) s.cell (storedVals (runBlocks B current s s.cell bs).2.2.1) ∧
      (∀ seen, storesPersisted seen (runBlocks B current s s.cell bs).2.2.1 = true) ∧
      (∀ v ∈ storedVals (runBlocks B current s s.cell bs).2.2.1,
        v ∈ (runBlocks B current s s.cell bs).1.db.blocks) ∧
      (∀ v ∈ s.db.blocks, v ∈ (runBlocks B current s s.cell bs).1.db.blocks) := by
  intro bs
  induction bs with
  | nil =>
    intro s _ _ hinv
    rw [runBlocks_nil]
    exact ⟨⟨rfl, le_refl _⟩, rfl, hinv, List.Chain.nil, fun _ => rfl,
      fun v hv => absurd hv (by simp [storedVals]), fun v hv => hv⟩
  | cons blk rest ih =>
    intro s hpw hx hinv
    obtain ⟨hhead, htail⟩ := List.pairwise_cons.mp hpw
    by_cases hskip : blk.blockNumber ≤ current
    · rw [runBlocks_cons_skip B current s s.cell blk rest hskip]
      exact ih s htail (fun x hxm => hx x (List.mem_cons_of_mem blk hxm)) hinv
    · have hcellle : s.cell ≤ blk.blockNumber := by
        rcases hx blk (List.mem_cons_self blk rest) with h | h
        · exact absurd h hskip
        · exact h
      rcases persist_block_cases B s.db blk with hp | ⟨hp, hmem⟩ | ⟨db1, hp, hb, _, _⟩
      · rw [runBlocks_cons_fail B current s s.cell blk rest s.db hskip hp]
        exact ⟨⟨rfl, le_refl _⟩, rfl, hinv, List.Chain.nil, fun _ => rfl,
          fun v hv => absurd hv (by simp [storedVals]), fun v hv => hv⟩
      · rw [runBlocks_cons_ok B current s s.cell blk rest s.db hskip hp]
        have hinv1 : blk.blockNumber ≤ maxBlock s.db.blocks :=
          le_maxBlock_of_mem s.db.blocks blk.blockNumber hmem
        have hx1 : ∀ x ∈ rest, x.blockNumber ≤ current ∨
            ({ s with db := s.db, cell := blk.blockNumber } : IndexerState).cell
              ≤ x.blockNumber :=
          fun x hxm => Or.inr (hhead x hxm)
        obtain ⟨⟨hc1, hc2⟩, hck, hinvr, hchain, hsp, hmemv, hmono⟩ :=
          ih { s with db := s.db, cell := blk.blockNumber } htail hx1 hinv1
        refine ⟨⟨hc1, le_trans hcellle hc2⟩, hck, hinvr, ?_, ?_, ?_, hmono⟩
        · rw [storedVals_cons_persist, storedVals_cons_store]
          exact List.Chain.cons hcellle hchain
        · intro seen
          rw [storesPersisted]
          rw [storesPersisted]
          rw [Bool.and_eq_true]
          exact ⟨by simp, hsp (blk.blockNumber :: seen)⟩
        · intro v hv
          rw [storedVals_cons_persist, storedVals_cons_store] at hv
          rcases List.mem_cons.mp hv with rfl | hv
          · exact hmono blk.blockNumber hmem
          · exact hmemv v hv
      · rw [runBlocks_cons_ok B current s s.cell blk rest db1 hskip hp]
        have hmem1 : blk.blockNumber ∈ db1.blocks := by
          rw [hb]
          exact List.mem_append_right _ (List.mem_singleton_self _)
        have hinv1 : blk.blockNumber ≤ maxBlock db1.blocks :=
          le_maxBlock_of_mem db1.blocks blk.blockNumber hmem1
        have hx1 : ∀ x ∈ rest, x.blockNumber ≤ current ∨
            ({ s with db := db1, cell := blk.blockNumber } : IndexerState).cell
              ≤ x.blockNumber :=
          fun x hxm => Or.inr (hhead x hxm)
        obtain ⟨⟨hc1, hc2⟩, hck, hinvr, hchain, hsp, hmemv, hmono⟩ :=
          ih { s with db := db1, cell := blk.blockNumber } htail hx1 hinv1
        refine ⟨⟨hc1, le_trans hcellle hc2⟩, hck, hinvr, ?_, ?_, ?_, ?_⟩
        · rw [storedVals_cons_persist, storedVals_cons_store]
          exact List.Chain.cons hcellle hchain
        · intro seen
          rw [storesPersisted]
          rw [storesPersisted]
          rw [Bool.and_eq_true]
          exact ⟨by simp, hsp (blk.blockNumber :: seen)⟩
        · intro v hv
          rw [storedVals_cons_persist, storedVals_cons_store] at hv
          rcases List.mem_cons.mp hv with rfl | hv
          · exact hmono blk.blockNumber hmem1
          · exact hmemv v hv
        · intro v hv
          refine hmono v ?_
          rw [hb]
          exact List.mem_append_left _ hv

theorem tick_main_eq (B : ExternalBounds) (s : IndexerState)
    (current latest : ℕ) (fetched : List BlockIn)
    (h1 : ¬ latest < current) (h2 : ¬ i64Max < latest) (h3 : ¬ latest = current) :
    tick B s current latest fetched =
      (match runBlocks B current s current
          (sortBlocks (fetched.filter (fun b => decide (current < b.blockNumber)))) with
       | (s1, processed, ev, true) =>
         if current < processed then
           match persist_checkpoint_for "chain" processed with
           | .panicked => (s1, ev, .panicked)
           | .ok => ({ s1 with chainCkpt := processed },
               ev ++ [.writeCheckpoint processed, .identitySync processed],
               .ok processed)
         else (s1, ev, .ok processed)
       | (s1, _, ev, false) => (s1, ev, .errored)) := by
  rw [tick, if_neg h1, if_neg h2, if_neg h3]

/-- Claim C7: within every tick, the values stored into the
`last_indexed_block` cell form a non-decreasing chain starting at the
cell's prior value (the cell never decreases); every store is
preceded in the trace by the successful persistence of that very
block (`storesPersisted`), and a successful `persist_block` leaves
the block number present in the `Blocks` table; the cell and the
persisted chain checkpoint never exceed the largest block number in
`Blocks` — also after the startup store that loads the checkpoint
into the cell. -/
theorem last_indexed_block_invariants (B : ExternalBounds) (s : IndexerState)
    (current latest : ℕ) (fetched : List BlockIn)
    (hcell : s.cell = current) (hcellInv : cellInv s) (hckptInv : ckptInv s) :
    List.Chain (· ≤ ·) s.cell (storedVals (tick B s current latest fetched).2.1) ∧
    s.cell ≤ (tick B s current latest fetched).1.cell ∧
    storesPersisted [] (tick B s current latest fetched).2.1 = true ∧
    cellInv (tick B s current latest fetched).1 ∧
    ckptInv (tick B s current latest fetched).1 ∧
    (∀ v ∈ storedVals (tick B s current latest fetched).2.1,
      v ∈ (tick B s current latest fetched).1.db.blocks) ∧
    cellInv (startupStoreCell (tick B s current latest fetched).1) ∧
    (∀ (s0 : IndexerState) (blk : BlockIn),
      (persist_block B s0.db blk).2 = true →
      blk.blockNumber ∈ (persist_block B s0.db blk).1.blocks) := by
  subst hcell
  have hstep : ∀ (s0 : IndexerState) (blk : BlockIn),
      (persist_block B s0.db blk).2 = true →
      blk.blockNumber ∈ (persist_block B s0.db blk).1.blocks := by
    intro s0 blk h
    rcases persist_block_cases B s0.db blk with hp | ⟨hp, hmem⟩ | ⟨db1, hp, hb, _, _⟩
    · rw [hp] at h
      exact absurd h (by simp)
    · rw [hp]
      exact hmem
    · rw [hp]
      show blk.blockNumber ∈ db1.blocks
      rw [hb]
      exact List.mem_append_right _ (List.mem_singleton_self _)
  have htriv : ∀ outc : TickOutcome,
      tick B s s.cell latest fetched = (s, [], outc) →
      List.Chain (· ≤ ·) s.cell (storedVals (tick B s s.cell latest fetched).2.1) ∧
      s.cell ≤ (tick B s s.cell latest fetched).1.cell ∧
      storesPersisted [] (tick B s s.cell latest fetched).2.1 = true ∧
      cellInv (tick B s s.cell latest fetched).1 ∧
      ckptInv (tick B s s.cell latest fetched).1 ∧
      (∀ v ∈ storedVals (tick B s s.cell latest fetched).2.1,
        v ∈ (tick B s s.cell latest fetched).1.db.blocks) ∧
      cellInv (startupStoreCell (tick B s s.cell latest fetched).1) ∧
      (∀ (s0 : IndexerState) (blk : BlockIn),
        (persist_block B s0.db blk).2 = true →
        blk.blockNumber ∈ (persist_block B s0.db blk).1.blocks) := by
    intro outc hres
    rw [hres]
    exact ⟨List.Chain.nil, le_refl _, rfl, hcellInv, hckptInv,
      fun v hv => absurd hv (by simp [storedVals]), hckptInv, hstep⟩
  by_cases h1 : latest < s.cell
  · exact htriv _ (by rw [tick, if_pos h1])
  by_cases h2 : i64Max < latest
  · exact htriv _ (by rw [tick, if_neg h1, if_pos h2])
  by_cases h3 : latest = s.cell
  · exact htriv _ (by rw [tick, if_neg h1, if_neg h2, if_pos h3])
  have hsorted : List.Pairwise (fun a b => a.blockNumber ≤ b.blockNumber)
      (sortBlocks (fetched.filter (fun b => decide (s.cell < b.blockNumber)))) := by
    rw [sortBlocks]
    refine List.Pairwise.imp ?_ (List.sorted_mergeSort ?_ ?_
      (fetched.filter (fun b => decide (s.cell < b.blockNumber))))
    · intro a b hab
      exact of_decide_eq_true hab
    · intro a b c hab hbc
      exact decide_eq_true
        (Nat.le_trans (of_decide_eq_true hab) (of_decide_eq_true hbc))
    · intro a b
      rcases Nat.le_total a.blockNumber b.blockNumber with h | h
      · rw [Bool.or_eq_true]
        exact Or.inl (decide_eq_true h)
      · rw [Bool.or_eq_true]
        exact Or.inr (decide_eq_true h)
  have hgt : ∀ x ∈ sortBlocks
      (fetched.filter (fun b => decide (s.cell < b.blockNumber))),
      s.cell < x.blockNumber := by
    intro x hx
    rw [sortBlocks] at hx
    exact of_decide_eq_true (List.mem_filter.mp (List.mem_mergeSort.mp hx)).2
  have hxd : ∀ x ∈ sortBlocks
      (fetched.filter (fun b => decide (s.cell < b.blockNumber))),
      x.blockNumber ≤ s.cell ∨ s.cell ≤ x.blockNumber := by
    intro x hx
    right
    exact le_of_lt (hgt x hx)
  have hspec := runBlocks_spec B s.cell
    (sortBlocks (fetched.filter (fun b => decide (s.cell < b.blockNumber))))
    s hsorted hxd hcellInv
  rcases hrb : runBlocks B s.cell s s.cell
      (sortBlocks (fetched.filter (fun b => decide (s.cell < b.blockNumber))))
    with ⟨s1, processed, ev, ok1⟩
  rw [hrb] at hspec
  dsimp only at hspec
  obtain ⟨⟨hc1, hc2⟩, hck, hinvr, hchain, hsp, hmemv, hmono⟩ := hspec
  have hckpt1 : s1.chainCkpt ≤ maxBlock s1.db.blocks := by
    rw [hck]
    exact le_trans hckptInv (maxBlock_le_of_subset _ _ hmono)
  cases ok1 with
  | false =>
    have hres : tick B s s.cell latest fetched = (s1, ev, .errored) := by
      rw [tick_main_eq B s s.cell latest fetched h1 h2 h3, hrb]
    rw [hres]
    exact ⟨hchain, hc2, hsp [], hinvr, hckpt1, hmemv, hckpt1, hstep⟩
  | true =>
    by_cases hcp : s.cell < processed
    · cases hck2 : persist_checkpoint_for "chain" processed with
      | panicked =>
        have hres : tick B s s.cell latest fetched = (s1, ev, .panicked) := by
          rw [tick_main_eq B s s.cell latest fetched h1 h2 h3, hrb]
          show (if s.cell < processed then
              match persist_checkpoint_for "chain" processed with
              | .panicked => (s1, ev, TickOutcome.panicked)
              | .ok => ({ s1 with chainCkpt := processed },
                  ev ++ [.writeCheckpoint processed, .identitySync processed],
                  .ok processed)
            else (s1, ev, TickOutcome.ok processed)) = (s1, ev, TickOutcome.panicked)
          rw [if_pos hcp, hck2]
        rw [hres]
        exact ⟨hchain, hc2, hsp [], hinvr, hckpt1, hmemv, hckpt1, hstep⟩
      | ok =>
        have hres : tick B s s.cell latest fetched
            = ({ s1 with chainCkpt := processed },
               ev ++ [.writeCheckpoint processed, .identitySync processed],
               .ok processed) := by
          rw [tick_main_eq B s s.cell latest fetched h1 h2 h3, hrb]
          show (if s.cell < processed then
              match persist_checkpoint_for "chain" processed with
              | .panicked => (s1, ev, TickOutcome.panicked)
              | .ok => ({ s1 with chainCkpt := processed },
                  ev ++ [.writeCheckpoint processed, .identitySync processed],
                  .ok processed)
            else (s1, ev, TickOutcome.ok processed))
            = ({ s1 with chainCkpt := processed },
               ev ++ [.writeCheckpoint processed, .identitySync processed],
               .ok processed)
          rw [if_pos hcp, hck2]
        rw [hres]
        have hckpt2 : processed ≤ maxBlock s1.db.blocks := by
          rw [← hc1]
          exact hinvr
        refine ⟨?_, hc2, ?_, hinvr, hckpt2, ?_, hckpt2, hstep⟩
        · show List.Chain (· ≤ ·) s.cell
            (storedVals (ev ++ [.writeCheckpoint processed, .identitySync processed]))
          rw [storedVals_append_tail]
          exact hchain
        · show storesPersisted []
            (ev ++ [.writeCheckpoint processed, .identitySync processed]) = true
          rw [storesPersisted_append_tail]
          exact hsp []
        · intro v hv
          show v ∈ s1.db.blocks
          refine hmemv v ?_
          have hv2 : v ∈ storedVals
              (ev ++ [.writeCheckpoint processed, .identitySync processed]) := hv
          rw [storedVals_append_tail] at hv2
          exact hv2
    · have hres : tick B s s.cell latest fetched = (s1, ev, .ok processed) := by
        rw [tick_main_eq B s s.cell latest fetched h1 h2 h3, hrb]
        show (if s.cell < processed then
            match persist_checkpoint_for "chain" processed with
            | .panicked => (s1, ev, TickOutcome.panicked)
            | .ok => ({ s1 with chainCkpt := processed },
                ev ++ [.writeCheckpoint processed, .identitySync processed],
                .ok processed)
          else (s1, ev, TickOutcome.ok processed)) = (s1, ev, TickOutcome.ok processed)
        rw [if_neg hcp]
      rw [hres]
      exact ⟨hchain, hc2, hsp [], hinvr, hckpt1, hmemv, hckpt1, hstep⟩

/-- Witness for C7: genesis state, chain height 2, two fresh empty
blocks fetched. -/
theorem last_indexed_block_invariants_witness :
    List.Chain (· ≤ ·) fixtureGenesis.cell
      (storedVals (tick fixtureBounds fixtureGenesis 0 2
        [fixtureBlock 1, fixtureBlock 2]).2.1) ∧
    fixtureGenesis.cell ≤ (tick fixtureBounds fixtureGenesis 0 2
      [fixtureBlock 1, fixtureBlock 2]).1.cell ∧
    storesPersisted [] (tick fixtureBounds fixtureGenesis 0 2
      [fixtureBlock 1, fixtureBlock 2]).2.1 = true ∧
    cellInv (tick fixtureBounds fixtureGenesis 0 2
      [fixtureBlock 1, fixtureBlock 2]).1 ∧
    ckptInv (tick fixtureBounds fixtureGenesis 0 2
      [fixtureBlock 1, fixtureBlock 2]).1 ∧
    (∀ v ∈ storedVals (tick fixtureBounds fixtureGenesis 0 2
        [fixtureBlock 1, fixtureBlock 2]).2.1,
      v ∈ (tick fixtureBounds fixtureGenesis 0 2
        [fixtureBlock 1, fixtureBlock 2]).1.db.blocks) ∧
    cellInv (startupStoreCell (tick fixtureBounds fixtureGenesis 0 2
      [fixtureBlock 1, fixtureBlock 2]).1) ∧
    (∀ (s0 : IndexerState) (blk : BlockIn),
      (persist_block fixtureBounds s0.db blk).2 = true →
      blk.blockNumber ∈ (persist_block fixtureBounds s0.db blk).1.blocks) :=
  last_indexed_block_invariants fixtureBounds fixtureGenesis 0 2
    [fixtureBlock 1, fixtureBlock 2] rfl (Nat.zero_le _) (Nat.zero_le _)

end SilicaApi
